import Mathlib

/-!
# keyboard_driver.c : line editor and key decoder

A shallow embedding of `keyboard_driver.c` / `keyboard_driver.h`.

* `unsigned short` variables are natural numbers; every assignment to one is
  reduced modulo 2^16 (`toU16`), `int` expressions are computed in `Int`.
* The caller's buffer `CmdLine` is a list of bytes whose length is its capacity.
  An access outside the list, and a loop of the source that cannot terminate,
  raise the `fault` flag of the world: the C program is undefined from there on.
  The model itself goes on with the store dropped and the load reading 0, so the
  properties say where the flag is raised and where it is not.
* Terminal output is the list of bytes written to stdout, oldest first.
* `g_ColumnLen` is a natural number. `GetWindowSize` only ever stores a non-zero
  width, and `%` and `/` by zero are undefined in C, so the properties of paths that
  divide by it are stated for a positive width.
* The keys handed to `GetCmdLine` are the successive results of
  `ConsoleGetChar`; the decoder itself is `Termios_ConsoleGetChar`.
-/

namespace KeyboardDriver

/-! ## keyboard_driver.h -/

def REX_KEY_BELL : Nat := 7
def REX_KEY_TAB : Nat := 9
def REX_KEY_BACKSPACE : Nat := 8
def REX_KEY_RETURN : Nat := 13
def REX_KEY_NEWLINE : Nat := 10
def REX_KEY_SPACE : Nat := 32
def REX_KEY_ESCAPE : Nat := 27
def REX_KEY_ASCII_DEL : Nat := 127
def REX_KEY_ESC_SEQ : Nat := 91

def REX_KEY_UP : Nat := 0xFF00
def REX_KEY_DOWN : Nat := 0xFF01
def REX_KEY_LEFT : Nat := 0xFF02
def REX_KEY_RIGHT : Nat := 0xFF03
def REX_KEY_PGUP : Nat := 0xFF10
def REX_KEY_PGDN : Nat := 0xFF11
def REX_KEY_DEL : Nat := 0xFF20
def REX_KEY_INS : Nat := 0xFF21
def REX_KEY_HOME : Nat := 0xFF30
def REX_KEY_END : Nat := 0xFF31
def REX_KEY_F1 : Nat := 0xFF80
def REX_KEY_F2 : Nat := 0xFF81
def REX_KEY_F3 : Nat := 0xFF82
def REX_KEY_F4 : Nat := 0xFF83

def SSH_BACKSPACE : Nat := 127

def PROMPT_STR_LEN : Nat := 0
def LINE_LEN : Nat := 250
def MAX_CMD_SIZE : Nat := 255

/-! ## Machine arithmetic and libc -/

/-- Conversion of an `int` value to `unsigned short`. -/
def toU16 (x : Int) : Nat := (x % 65536).toNat

/-- Conversion of a buffer cell (`char`, signed on the target) to `unsigned short`. -/
def charToUShort (c : Nat) : Nat :=
  if c % 256 < 128 then c % 256 else 65280 + c % 256

/-- The libc test `isascii`: no bit above the low seven is set. -/
def isascii (ch : Nat) : Bool := decide (ch < 128)

/-- The libc test `isprint` in the C locale, which the program never changes. -/
def isprint (ch : Nat) : Bool := decide (32 ≤ ch) && decide (ch ≤ 126)

/-- The characters `sprintf(tmp, "%d", n)` stores in `tmp`. -/
def sprintf_d (n : Int) : List Nat :=
  if n < 0 then 45 :: (Nat.toDigits 10 n.natAbs).map Char.toNat
  else (Nat.toDigits 10 n.toNat).map Char.toNat

/-! ## The world shared by the console functions -/

/-- Process-wide settings: the global `g_ColumnLen` and the static `Opened`. -/
structure Env where
  g_ColumnLen : Nat
  Opened : Bool
  deriving DecidableEq, Repr

/-- The buffer of the caller, the bytes written to stdout, and the fault flag. -/
structure World where
  CmdLine : List Nat
  out : List Nat
  fault : Bool
  deriving DecidableEq, Repr

/-- Value of `CmdLine[i]` (0 when `i` is outside the buffer, which `touch` reports). -/
def World.load (w : World) (i : Nat) : Nat := w.CmdLine.getD i 0

/-- Record an access to `CmdLine[i]`. -/
def World.touch (w : World) (i : Nat) : World :=
  if i < w.CmdLine.length then w else { w with fault := true }

/-- The assignment `CmdLine[i] = v`. -/
def World.store (w : World) (i : Nat) (v : Nat) : World :=
  if i < w.CmdLine.length then { w with CmdLine := w.CmdLine.set i v }
  else { w with fault := true }

/-- Bytes appended to stdout. -/
def World.emit (w : World) (bs : List Nat) : World := { w with out := w.out ++ bs }

/-! ## Functions that only write to the terminal

A C function that does nothing but write is the list of bytes it writes. -/

/-- `ConsolePutChar(ch)` for an `unsigned short ch`: the byte written, if any. -/
def ConsolePutChar (env : Env) (ch : Nat) : List Nat :=
  if !env.Opened then [ch % 256]
  else if isascii ch then [ch % 256]
  else []

def ConsoleBell (env : Env) : List Nat := ConsolePutChar env REX_KEY_BELL

/-- The loop `while (tmp[i] != 0) ConsolePutChar(tmp[i++])` over a digit string. -/
def putDigits (env : Env) : List Nat → List Nat
  | [] => []
  | d :: ds => ConsolePutChar env d ++ putDigits env ds

def ForwardCursor (env : Env) (column : Int) : List Nat :=
  ConsolePutChar env REX_KEY_ESCAPE ++ ConsolePutChar env 91 ++
    putDigits env (sprintf_d column) ++ ConsolePutChar env 67

def BackwardCursor (env : Env) (column : Int) : List Nat :=
  ConsolePutChar env REX_KEY_ESCAPE ++ ConsolePutChar env 91 ++
    putDigits env (sprintf_d column) ++ ConsolePutChar env 68

def MoveCursorOneLineUp (env : Env) : List Nat :=
  ConsolePutChar env REX_KEY_ESCAPE ++ ConsolePutChar env 91 ++
    ConsolePutChar env 49 ++ ConsolePutChar env 65

def MoveCursorOneLineDown (env : Env) : List Nat :=
  ConsolePutChar env REX_KEY_ESCAPE ++ ConsolePutChar env 91 ++
    ConsolePutChar env 49 ++ ConsolePutChar env 66

def DelCharFromCursorToEndOfLine (env : Env) : List Nat :=
  ConsolePutChar env REX_KEY_ESCAPE ++ ConsolePutChar env 91 ++ ConsolePutChar env 75

def EraseChar (env : Env) : List Nat :=
  ConsolePutChar env REX_KEY_BACKSPACE ++ ConsolePutChar env REX_KEY_SPACE ++
    ConsolePutChar env REX_KEY_BACKSPACE

/-- The step every cursor walk of the source repeats, written out in Home, Left,
Backspace, `EraseDelChar` and `PutCmdLine`: when `offset % g_ColumnLen == 0` go one
row up and `g_ColumnLen - 1` columns forward, otherwise one column back. -/
def stepBack (env : Env) (offset : Nat) : List Nat :=
  if offset % env.g_ColumnLen = 0 then
    MoveCursorOneLineUp env ++ ForwardCursor env ((env.g_ColumnLen : Int) - 1)
  else ConsolePutChar env REX_KEY_BACKSPACE

/-- `EraseCmdLine(Index)`: the loop `while (Index--)`; inside the body `Index`
is already decremented. -/
def EraseCmdLine (env : Env) : Nat → List Nat
  | 0 => []
  | n + 1 =>
    (if (n + PROMPT_STR_LEN + 1) % env.g_ColumnLen = 0 then
        MoveCursorOneLineUp env ++ ForwardCursor env (env.g_ColumnLen : Int) ++
          DelCharFromCursorToEndOfLine env
      else EraseChar env) ++ EraseCmdLine env n

/-- The loop `while (curIndex) { ...; curIndex--; }` of the Home key. -/
def homeLoop (env : Env) : Nat → List Nat
  | 0 => []
  | c + 1 => stepBack env (c + 1 + PROMPT_STR_LEN) ++ homeLoop env c

/-- In `EraseDelChar`: the loop `while (delIndex) { ...; delIndex--; }`. -/
def eraseWalkBack (env : Env) (curIndex : Nat) : Nat → List Nat
  | 0 => []
  | d + 1 => stepBack env (curIndex + PROMPT_STR_LEN + (d + 1)) ++ eraseWalkBack env curIndex d

/-- In `PutCmdLine`: the loop `while (delIndex) { ...; delIndex--; }`. -/
def putWalkBack (env : Env) (tmpCurIndex : Nat) : Nat → List Nat
  | 0 => []
  | d + 1 =>
    stepBack env (tmpCurIndex + PROMPT_STR_LEN + (d + 1) + 1) ++ putWalkBack env tmpCurIndex d

/-- The loop `while (temp3--) ConsolePutChar(REX_KEY_NEWLINE);`. -/
def newlines (env : Env) : Nat → List Nat
  | 0 => []
  | n + 1 => ConsolePutChar env REX_KEY_NEWLINE ++ newlines env n

/-! ## The key decoder -/

/-- The input side: the static `peek` (-1 when empty), the bytes still to come on
stdin (reading past their end gives `EOF`), and what the decoder wrote to stdout. -/
structure Kbd where
  peek : Int
  stdin : List Nat
  diag : List Nat
  deriving DecidableEq, Repr

/-- The libc call `getchar()`; `EOF` is -1. -/
def getchar (k : Kbd) : Int × Kbd :=
  match k.stdin with
  | [] => (-1, k)
  | c :: rest => ((c : Int), { k with stdin := rest })

def Unix_getch (k : Kbd) : Int × Kbd :=
  if k.peek ≠ -1 then (k.peek, { k with peek := -1 })
  else getchar k

def Termios_Unix_kbhit (k : Kbd) : Nat × Kbd :=
  let r := getchar k
  if r.1 ≠ -1 then (1, { r.2 with peek := r.1 })
  else (0, r.2)

def Unix_kbhit (k : Kbd) : Nat × Kbd :=
  if k.peek ≠ -1 then (1, k)
  else Termios_Unix_kbhit k

/-- The text `Unknown Esc Seq Code ` of the diagnostic, as bytes. -/
def unknownEscSeqText : List Nat :=
  [85, 110, 107, 110, 111, 119, 110, 32, 69, 115, 99, 32, 83, 101, 113, 32,
   67, 111, 100, 101, 32]

/-- `Termios_ConsoleGetChar()`: the key returned (an `unsigned short`) and the
input side afterwards. `RawConsole` is the static flag set by `OpenConsole`. -/
def Termios_ConsoleGetChar (RawConsole : Nat) (k : Kbd) : Nat × Kbd :=
  if RawConsole ≠ 0 then
    let r := Unix_getch k
    (toU16 r.1, r.2)
  else
    let r := Unix_getch k
    let ch := r.1
    let k := r.2
    if ch ≠ (REX_KEY_ESCAPE : Int) then
      if ch = (REX_KEY_RETURN : Int) then (toU16 (REX_KEY_NEWLINE : Int), k)
      else (toU16 ch, k)
    else
      let h := Unix_kbhit k
      if h.1 = 0 then (toU16 ch, h.2)
      else
        let r := Unix_getch h.2
        let EscSeq := r.1
        let k := r.2
        if EscSeq ≠ (REX_KEY_ESC_SEQ : Int) ∧ EscSeq ≠ 79 then (toU16 ch, k)
        else
          let r := Unix_getch k
          let EscSeq := r.1
          let k := r.2
          if EscSeq = 68 then (REX_KEY_LEFT, k)
          else if EscSeq = 67 then (REX_KEY_RIGHT, k)
          else if EscSeq = 65 then (REX_KEY_UP, k)
          else if EscSeq = 66 then (REX_KEY_DOWN, k)
          else if EscSeq = 53 then (REX_KEY_PGUP, (Unix_getch k).2)
          else if EscSeq = 54 then (REX_KEY_PGDN, (Unix_getch k).2)
          else if EscSeq = 49 then (0, (Unix_getch k).2)
          else if EscSeq = 72 then (REX_KEY_HOME, k)
          else if EscSeq = 52 then (0, (Unix_getch k).2)
          else if EscSeq = 70 then (REX_KEY_END, k)
          else if EscSeq = 50 then (REX_KEY_INS, k)
          else if EscSeq = 51 then (REX_KEY_DEL, (Unix_getch k).2)
          else if EscSeq = 80 then (REX_KEY_F1, k)
          else if EscSeq = 81 then (REX_KEY_F2, k)
          else if EscSeq = 82 then (REX_KEY_F3, k)
          else if EscSeq = 83 then (REX_KEY_F4, k)
          else
            (0, { k with diag := k.diag ++ unknownEscSeqText ++ sprintf_d ch ++ [10] })

def ConsoleGetChar (RawConsole : Nat) (k : Kbd) : Nat × Kbd :=
  Termios_ConsoleGetChar RawConsole k

/-! ## Functions that read or write the buffer -/

/-- In `EraseDelChar`: `n` rounds of
`CmdLine[delIndex] = CmdLine[delIndex+1]; ConsolePutChar(CmdLine[delIndex]); delIndex++`. -/
def eraseShift (env : Env) : Nat → Nat → World → World
  | 0, _, w => w
  | n + 1, delIndex, w =>
    let w1 := (w.touch (delIndex + 1)).store delIndex (w.load (delIndex + 1))
    let w2 := w1.emit (ConsolePutChar env (charToUShort (w1.load delIndex)))
    eraseShift env n (delIndex + 1) w2

/-- `EraseDelChar(CmdLine, curIndex, Index)`. -/
def EraseDelChar (env : Env) (w : World) (curIndex Index : Nat) : World :=
  if curIndex ≥ MAX_CMD_SIZE ∨ Index ≥ MAX_CMD_SIZE then w
  else if curIndex ≥ Index then
    let w := w.emit (EraseChar env)
    if Index = 0 then { w with fault := true } else w.store (Index - 1) 0
  else
    let w := eraseShift env (Index - curIndex) curIndex w
    let w := w.emit (ConsolePutChar env REX_KEY_SPACE)
    let delIndex := Index - curIndex
    let w := if delIndex ≠ 0 then w.emit (ConsolePutChar env REX_KEY_BACKSPACE) else w
    let delIndex := if delIndex ≠ 0 then delIndex - 1 else delIndex
    w.emit (eraseWalkBack env curIndex delIndex)

/-- The body `ConsolePutChar(CmdLine[curIndex]); curIndex++`, `n` times. -/
def putRange (env : Env) : Nat → Nat → World → World
  | 0, _, w => w
  | n + 1, curIndex, w =>
    putRange env n (curIndex + 1)
      ((w.touch curIndex).emit (ConsolePutChar env (charToUShort (w.load curIndex))))

/-- The loop `while (curIndex <= Index) { ConsolePutChar(CmdLine[curIndex]); curIndex++; }`
on `unsigned short` counters. With `Index = 65535` the test never fails. -/
def putLoop (env : Env) (w : World) (curIndex Index : Nat) : World :=
  if curIndex ≤ Index ∧ 65535 ≤ Index then { w with fault := true }
  else putRange env (Index + 1 - curIndex) curIndex w

/-- `PutCmdLine(CmdLine, Index, curIndex, StartIndex, delIndex)`. -/
def PutCmdLine (env : Env) (w : World) (Index curIndex StartIndex delIndex : Nat) : World :=
  let tmpCurIndex := curIndex
  let curIndex := toU16 ((curIndex : Int) + StartIndex)
  let w := putLoop env w curIndex Index
  let w := if delIndex ≠ 0 then w.emit (ConsolePutChar env REX_KEY_BACKSPACE) else w
  let delIndex := if delIndex ≠ 0 then delIndex - 1 else delIndex
  w.emit (putWalkBack env tmpCurIndex delIndex)

/-- The shifting loop `for (i = Index; i >= curIndex; i--) CmdLine[i+1] = CmdLine[i];`,
`n` rounds starting at `i`. -/
def insertShift : Nat → Nat → World → World
  | 0, _, w => w
  | n + 1, i, w => insertShift n (i - 1) ((w.touch i).store (i + 1) (w.load i))

/-! ## GetCmdLine -/

/-- The variables of `GetCmdLine` together with the world. -/
structure State where
  w : World
  Index : Nat
  curIndex : Nat
  StartIndex : Nat
  deriving DecidableEq, Repr

/-- How one pass through the body of `while (1)` ends. -/
inductive Outcome where
  /-- The body reached `continue` or its end: the next key is read. -/
  | cont (s : State)
  /-- The body reached `break`; `GetCmdLine` then returns 0. -/
  | brk (s : State)
  /-- The body executed `return 0`. -/
  | ret (s : State)
  deriving DecidableEq, Repr

/-- The Home key (source lines 672-692). -/
def keyHome (env : Env) (s : State) : Outcome :=
  .cont { s with w := s.w.emit (homeLoop env s.curIndex), curIndex := 0 }

/-- The End key (source lines 696-701). -/
def keyEnd (env : Env) (s : State) : Outcome :=
  .cont { s with
    w := PutCmdLine env s.w s.Index s.curIndex s.StartIndex 0,
    curIndex := toU16 ((s.Index : Int) - s.StartIndex) }

/-- The Escape key (source lines 728-747). -/
def keyEscape (env : Env) (s : State) : Outcome :=
  if s.StartIndex ≠ 0 then .cont s
  else
    let w := if s.curIndex ≠ s.Index then putLoop env s.w s.curIndex s.Index else s.w
    .cont { s with w := w.emit (EraseCmdLine env s.Index), Index := 0, curIndex := 0 }

/-- The Left key (source lines 751-771). -/
def keyLeft (env : Env) (s : State) : Outcome :=
  if s.Index > s.StartIndex ∧ s.curIndex ≠ 0 then
    .cont { s with
      w := s.w.emit (stepBack env (s.curIndex + PROMPT_STR_LEN)),
      curIndex := toU16 ((s.curIndex : Int) - 1) }
  else .cont s

/-- The Right key (source lines 774-792). -/
def keyRight (env : Env) (s : State) : Outcome :=
  if s.Index > s.curIndex + s.StartIndex then
    let bs :=
      if (s.curIndex + PROMPT_STR_LEN + 1) % env.g_ColumnLen = 0 then
        MoveCursorOneLineDown env ++ BackwardCursor env ((env.g_ColumnLen : Int) - 1)
      else ForwardCursor env 1
    .cont { s with w := s.w.emit bs, curIndex := toU16 ((s.curIndex : Int) + 1) }
  else .cont s

/-- The Backspace key, code 8 or 127 (source lines 796-850). -/
def keyBackspace (env : Env) (s : State) : Outcome :=
  if s.Index > s.StartIndex ∧ s.curIndex ≠ 0 then
    if s.curIndex + s.StartIndex ≠ s.Index then
      let w := s.w.emit (stepBack env (s.curIndex + PROMPT_STR_LEN))
      let w := EraseDelChar env w (toU16 ((s.curIndex : Int) - 1 + s.StartIndex)) s.Index
      .cont { s with
        w := w,
        curIndex := toU16 ((s.curIndex : Int) - 1),
        Index := toU16 ((s.Index : Int) - 1) }
    else
      let bs :=
        if (s.Index + PROMPT_STR_LEN) % env.g_ColumnLen = 0 then
          MoveCursorOneLineUp env ++ ForwardCursor env ((env.g_ColumnLen : Int) - 1) ++
            DelCharFromCursorToEndOfLine env
        else EraseChar env
      let w := s.w.emit bs
      if s.Index > MAX_CMD_SIZE then .ret { s with w := w }
      else
        .cont { s with
          w := w.store (s.Index - 1) 0,
          curIndex := toU16 ((s.curIndex : Int) - 1),
          Index := toU16 ((s.Index : Int) - 1) }
  else .cont { s with w := s.w.emit (ConsoleBell env) }

/-- The Delete key (source lines 853-865). -/
def keyDelete (env : Env) (s : State) : Outcome :=
  if s.Index > s.StartIndex ∧ s.curIndex ≠ s.Index then
    let w := EraseDelChar env s.w (toU16 ((s.curIndex : Int) + s.StartIndex)) s.Index
    let curIndex :=
      if s.Index = s.StartIndex + s.curIndex then toU16 ((s.curIndex : Int) - 1)
      else s.curIndex
    .cont { s with w := w, curIndex := curIndex, Index := toU16 ((s.Index : Int) - 1) }
  else .cont s

/-- The Tab key (source lines 868-873). -/
def keyTab (s : State) : Outcome :=
  .cont { s with curIndex := s.Index }

/-- The Enter key when it is not a line continuation (source lines 907-926). -/
def enterFinish (env : Env) (s : State) (w : World) : Outcome :=
  if s.Index ≥ MAX_CMD_SIZE - 1 then .ret { s with w := w }
  else
    let w := w.store s.Index 0
    let Index := toU16 ((s.Index : Int) + 1)
    let w := w.emit (ConsolePutChar env REX_KEY_NEWLINE)
    let temp1 : Nat := (Index + PROMPT_STR_LEN) / env.g_ColumnLen
    let temp2 : Nat := (s.curIndex + PROMPT_STR_LEN) / env.g_ColumnLen
    let temp3 : Int := (temp1 : Int) - (temp2 : Int)
    let w := if temp3 < 0 then { w with fault := true } else w.emit (newlines env temp3.toNat)
    .brk { s with w := w, Index := Index }

/-- The Enter key (source lines 876-927). -/
def keyEnter (env : Env) (s : State) : Outcome :=
  if s.Index > s.StartIndex then
    let w := s.w.touch (s.Index - 1)
    if w.load (s.Index - 1) = 92 then
      if s.Index = 1 then
        .cont { s with w := w.emit (EraseChar env), Index := 0, curIndex := 0 }
      else
        let Index := toU16 ((s.Index : Int) - 1)
        let StartIndex := Index
        let curIndex := toU16 ((s.curIndex : Int) - 1)
        let curIndex := toU16 ((curIndex : Int) + StartIndex)
        let w := if curIndex ≠ Index then putLoop env w curIndex Index else w
        .cont { w := w.emit (ConsolePutChar env REX_KEY_NEWLINE),
                Index := Index, curIndex := 0, StartIndex := StartIndex }
    else enterFinish env s w
  else enterFinish env s s.w

/-- A printable character (source lines 945-990). -/
def keyChar (env : Env) (isPassword : Nat) (s : State) (ch : Nat) : Outcome :=
  if s.Index ≠ LINE_LEN then
    let curIndex := toU16 ((s.curIndex : Int) + s.StartIndex)
    let w :=
      if s.Index ≠ curIndex then insertShift (s.Index + 1 - curIndex) s.Index s.w else s.w
    let w := w.store curIndex (ch &&& 0xFF)
    let curIndex := toU16 ((curIndex : Int) + 1)
    let Index := toU16 ((s.Index : Int) + 1)
    let w := w.store Index 0
    let curIndex := toU16 ((curIndex : Int) - s.StartIndex)
    let w :=
      if Index > curIndex + s.StartIndex then
        PutCmdLine env w (toU16 ((Index : Int) - 1)) (toU16 ((curIndex : Int) - 1))
          s.StartIndex (toU16 ((Index : Int) - ((curIndex : Int) + s.StartIndex)))
      else if isPassword ≠ 0 then w.emit (ConsolePutChar env 42)
      else
        let w := w.emit (ConsolePutChar env ch)
        if (curIndex + PROMPT_STR_LEN) % env.g_ColumnLen = 0 then
          (w.emit [32]).emit (BackwardCursor env 1)
        else w
    .cont { s with w := w, Index := Index, curIndex := curIndex }
  else .cont { s with w := s.w.emit (ConsoleBell env) }

/-- One pass through the body of `while (1)` in `GetCmdLine`, for the key `ch`
that `ConsoleGetChar` returned. -/
def step (env : Env) (isPassword : Nat) (s : State) (ch : Nat) : Outcome :=
  if ch = REX_KEY_HOME then keyHome env s
  else if ch = REX_KEY_END then keyEnd env s
  else if ch = REX_KEY_ESCAPE then keyEscape env s
  else if ch = REX_KEY_LEFT then keyLeft env s
  else if ch = REX_KEY_RIGHT then keyRight env s
  else if ch = REX_KEY_BACKSPACE ∨ ch = SSH_BACKSPACE then keyBackspace env s
  else if ch = REX_KEY_DEL then keyDelete env s
  else if ch = REX_KEY_TAB then keyTab s
  else if ch = REX_KEY_NEWLINE then keyEnter env s
  else if ch &&& 0xFF00 ≠ 0 then .cont { s with w := s.w.emit (ConsoleBell env) }
  else if !isprint ch then .cont { s with w := s.w.emit (ConsoleBell env) }
  else keyChar env isPassword s ch

/-- What a call of `GetCmdLine` has come to once the given keys are used up. -/
inductive Result where
  /-- `GetCmdLine` returned `val`; `rest` are the keys it did not read. -/
  | returned (s : State) (val : Nat) (rest : List Nat)
  /-- Every key was handled and `GetCmdLine` waits in `ConsoleGetChar`. -/
  | reading (s : State)
  deriving DecidableEq, Repr

/-- The loop `while (1)` of `GetCmdLine` fed with the keys `ConsoleGetChar` returns. -/
def editLoop (env : Env) (isPassword : Nat) : State → List Nat → Result
  | s, [] => .reading s
  | s, ch :: rest =>
    match step env isPassword s ch with
    | .cont s1 => editLoop env isPassword s1 rest
    | .brk s1 => .returned s1 0 rest
    | .ret s1 => .returned s1 0 rest

/-- The state `GetCmdLine(CmdLine, Index, isPassword)` starts its loop in. -/
def initState (CmdLine : List Nat) (Index : Nat) : State :=
  { w := { CmdLine := CmdLine, out := [], fault := false },
    Index := Index, curIndex := Index, StartIndex := 0 }

/-- `GetCmdLine(CmdLine, Index, isPassword)` on the given keys. -/
def GetCmdLine (env : Env) (CmdLine : List Nat) (Index : Nat) (isPassword : Nat)
    (keys : List Nat) : Result :=
  editLoop env isPassword (initState CmdLine Index) keys

/-! ## Notions the properties are stated with -/

/-- The Line Buffer invariant of the specification:
`segmentStart ≤ cursorOffset + segmentStart ≤ length ≤ MAX_CMD_SIZE - 1`. -/
def Inv (s : State) : Prop :=
  s.StartIndex ≤ s.curIndex + s.StartIndex ∧ s.curIndex + s.StartIndex ≤ s.Index ∧
    s.Index ≤ MAX_CMD_SIZE - 1

instance (s : State) : Decidable (Inv s) := by unfold Inv; infer_instance

/-- The buffer content `[0:length]`. -/
def State.content (s : State) : List Nat := s.w.CmdLine.take s.Index

/-- The state a result carries. -/
def Result.state : Result → State
  | .returned s _ _ => s
  | .reading s => s

/-- Whether the call has returned. -/
def Result.isReturned : Result → Bool
  | .returned _ _ _ => true
  | .reading _ => false

/-- The settings `main` runs with: console opened, default width of 80 columns. -/
def mainEnv : Env := { g_ColumnLen := 80, Opened := true }

/-- The buffers of `main`: `char username[MAX_CMD_SIZE] = {0}`. -/
def mainBuf : List Nat := List.replicate MAX_CMD_SIZE 0

/-- Net horizontal movement of the terminal cursor caused by a run of bytes that
stays on one row: a backspace moves one column back, a printing byte one forward. -/
def colShift : List Nat → Int
  | [] => 0
  | b :: bs =>
    (if b = REX_KEY_BACKSPACE then -1 else if isprint b then 1 else 0) + colShift bs

/-- An example state: the line `ab` in a buffer of `main`, cursor between the two
characters. -/
def midLineState : State :=
  { w := { CmdLine := 97 :: 98 :: List.replicate 253 0, out := [], fault := false },
    Index := 2, curIndex := 1, StartIndex := 0 }

/-- An example state: the line `hello` typed into a buffer of `main`, cursor at
the end, with the five characters echoed on the terminal. -/
def helloState : State :=
  { w := { CmdLine := 104 :: 101 :: 108 :: 108 :: 111 :: List.replicate 250 0,
           out := [104, 101, 108, 108, 111], fault := false },
    Index := 5, curIndex := 5, StartIndex := 0 }

/-- What the variables satisfy after any run of keys in a call that started with
`curIndex = Index ≤ LINE_LEN` on a buffer of `MAX_CMD_SIZE` cells: the length is at
most `LINE_LEN`, and neither the cursor offset nor the segment start exceeds it. -/
def Reach (s : State) : Prop :=
  s.curIndex ≤ s.Index ∧ s.StartIndex ≤ s.Index ∧ s.Index ≤ LINE_LEN ∧
    s.w.CmdLine.length = MAX_CMD_SIZE

instance (s : State) : Decidable (Reach s) := by unfold Reach; infer_instance

/-- A buffer of `MAX_CMD_SIZE` cells handed to `GetCmdLine` with a prefilled line of
200 characters, 199 letters `a` and a closing backslash. -/
def continuedBuf : List Nat := List.replicate 199 97 ++ 92 :: List.replicate 55 0

/-! ## The world: loads, stores, output -/

@[simp] theorem emit_CmdLine (w : World) (bs : List Nat) : (w.emit bs).CmdLine = w.CmdLine := rfl
@[simp] theorem emit_fault (w : World) (bs : List Nat) : (w.emit bs).fault = w.fault := rfl
@[simp] theorem emit_out (w : World) (bs : List Nat) : (w.emit bs).out = w.out ++ bs := rfl
@[simp] theorem emit_load (w : World) (bs : List Nat) (i : Nat) :
    (w.emit bs).load i = w.load i := rfl

theorem touch_of_lt {w : World} {i : Nat} (h : i < w.CmdLine.length) : w.touch i = w := by
  simp [World.touch, h]

@[simp] theorem touch_CmdLine (w : World) (i : Nat) : (w.touch i).CmdLine = w.CmdLine := by
  unfold World.touch; split <;> rfl

@[simp] theorem touch_out (w : World) (i : Nat) : (w.touch i).out = w.out := by
  unfold World.touch; split <;> rfl

@[simp] theorem touch_load (w : World) (i j : Nat) : (w.touch i).load j = w.load j := by
  unfold World.touch; split <;> rfl

@[simp] theorem store_length (w : World) (i v : Nat) :
    (w.store i v).CmdLine.length = w.CmdLine.length := by
  unfold World.store; split <;> simp

@[simp] theorem store_out (w : World) (i v : Nat) : (w.store i v).out = w.out := by
  unfold World.store; split <;> rfl

theorem store_fault_of_lt {w : World} {i : Nat} (v : Nat) (h : i < w.CmdLine.length) :
    (w.store i v).fault = w.fault := by
  simp [World.store, h]

theorem load_store {w : World} {i : Nat} (v j : Nat) (h : i < w.CmdLine.length) :
    (w.store i v).load j = if j = i then v else w.load j := by
  simp only [World.store, h, if_true, World.load, List.getD_eq_getElem?_getD,
    List.getElem?_set]
  by_cases hj : j = i
  · subst hj; simp [h]
  · have : ¬ i = j := fun e => hj e.symm
    simp [hj, this]

/-- Two buffers of equal length that agree below `n` have the same first `n` cells. -/
theorem take_eq_of_load {a b : List Nat} (n : Nat) (hl : a.length = b.length)
    (h : ∀ j, j < n → a.getD j 0 = b.getD j 0) : a.take n = b.take n := by
  apply List.ext_getElem?
  intro j
  simp only [List.getElem?_take]
  by_cases hj : j < n
  · simp only [hj, if_true]
    have := h j hj
    simp only [List.getD_eq_getElem?_getD] at this
    by_cases hja : j < a.length
    · have hjb : j < b.length := hl ▸ hja
      simp only [List.getElem?_eq_getElem hja, List.getElem?_eq_getElem hjb, Option.getD_some] at this ⊢
      rw [this]
    · have hjb : ¬ j < b.length := hl ▸ hja
      simp [List.getElem?_eq_none (Nat.le_of_not_lt hja), List.getElem?_eq_none (Nat.le_of_not_lt hjb)]
  · simp [hj]

/-! ## The loops over the buffer -/

theorem insertShift_frame (n : Nat) : ∀ (i : Nat) (w : World), n ≤ i + 1 →
    i + 1 < w.CmdLine.length →
    (insertShift n i w).CmdLine.length = w.CmdLine.length ∧
    (insertShift n i w).fault = w.fault ∧ (insertShift n i w).out = w.out := by
  induction n with
  | zero => intro i w _ _; exact ⟨rfl, rfl, rfl⟩
  | succ n ih =>
    intro i w hn hi
    have hi0 : i < w.CmdLine.length := by omega
    simp only [insertShift, touch_of_lt hi0]
    have h := ih (i - 1) (w.store (i + 1) (w.load i)) (by omega) (by simp; omega)
    simp only [store_length, store_out, store_fault_of_lt _ hi] at h
    exact h

theorem insertShift_load (n : Nat) : ∀ (i : Nat) (w : World) (j : Nat), n ≤ i + 1 →
    i + 1 < w.CmdLine.length →
    (insertShift n i w).load j =
      if i + 2 ≤ j + n ∧ j ≤ i + 1 then w.load (j - 1) else w.load j := by
  induction n with
  | zero =>
    intro i w j _ _
    have : ¬ (i + 2 ≤ j ∧ j ≤ i + 1) := by omega
    simp [insertShift, this]
  | succ n ih =>
    intro i w j hn hi
    have hi0 : i < w.CmdLine.length := by omega
    simp only [insertShift, touch_of_lt hi0]
    rw [ih (i - 1) (w.store (i + 1) (w.load i)) j (by omega) (by simp; omega)]
    rw [load_store _ _ hi, load_store _ _ hi]
    by_cases h1 : j = i + 1
    · subst h1
      have c1 : ¬ (i - 1 + 2 ≤ i + 1 + n ∧ i + 1 ≤ i - 1 + 1) := by omega
      have c2 : i + 2 ≤ i + 1 + (n + 1) ∧ i + 1 ≤ i + 1 := by omega
      simp [c1, c2]
    · by_cases h2 : i + 2 ≤ j + (n + 1) ∧ j ≤ i + 1
      · have c1 : i - 1 + 2 ≤ j + n ∧ j ≤ i - 1 + 1 := by omega
        have c3 : ¬ (j - 1 = i + 1) := by omega
        simp [c1, h2, c3]
      · have c1 : ¬ (i - 1 + 2 ≤ j + n ∧ j ≤ i - 1 + 1) := by omega
        simp [c1, h2, h1]

theorem eraseShift_frame (env : Env) (n : Nat) : ∀ (d : Nat) (w : World),
    d + n < w.CmdLine.length →
    (eraseShift env n d w).CmdLine.length = w.CmdLine.length ∧
    (eraseShift env n d w).fault = w.fault := by
  induction n with
  | zero => intro d w _; exact ⟨rfl, rfl⟩
  | succ n ih =>
    intro d w hd
    have hd1 : d + 1 < w.CmdLine.length := by omega
    have hd0 : d < w.CmdLine.length := by omega
    simp only [eraseShift, touch_of_lt hd1]
    have h := ih (d + 1) (((w.store d (w.load (d + 1))).emit
      (ConsolePutChar env (charToUShort ((w.store d (w.load (d + 1))).load d)))))
      (by simp; omega)
    simp only [emit_CmdLine, emit_fault, store_length, store_fault_of_lt _ hd0] at h
    exact h

theorem eraseShift_load (env : Env) (n : Nat) : ∀ (d : Nat) (w : World) (j : Nat),
    d + n < w.CmdLine.length →
    (eraseShift env n d w).load j =
      if d ≤ j ∧ j < d + n then w.load (j + 1) else w.load j := by
  induction n with
  | zero =>
    intro d w j _
    have : ¬ (d ≤ j ∧ j < d) := by omega
    simp [eraseShift, this]
  | succ n ih =>
    intro d w j hd
    have hd1 : d + 1 < w.CmdLine.length := by omega
    have hd0 : d < w.CmdLine.length := by omega
    simp only [eraseShift, touch_of_lt hd1]
    rw [ih (d + 1) _ j (by simp; omega)]
    simp only [emit_load]
    rw [load_store _ _ hd0, load_store _ _ hd0]
    by_cases h1 : j = d
    · subst h1
      have c1 : ¬ (j + 1 ≤ j ∧ j < j + 1 + n) := by omega
      have c2 : j ≤ j ∧ j < j + (n + 1) := by omega
      simp [c1, c2]
    · by_cases h2 : d ≤ j ∧ j < d + (n + 1)
      · have c1 : d + 1 ≤ j ∧ j < d + 1 + n := by omega
        have c3 : ¬ (j + 1 = d) := by omega
        simp [c1, h2, c3]
      · have c1 : ¬ (d + 1 ≤ j ∧ j < d + 1 + n) := by omega
        simp [c1, h2, h1]

theorem putRange_frame (env : Env) (n : Nat) : ∀ (c : Nat) (w : World),
    c + n ≤ w.CmdLine.length →
    (putRange env n c w).CmdLine = w.CmdLine ∧ (putRange env n c w).fault = w.fault := by
  induction n with
  | zero => intro c w _; exact ⟨rfl, rfl⟩
  | succ n ih =>
    intro c w hc
    have hc0 : c < w.CmdLine.length := by omega
    simp only [putRange, touch_of_lt hc0]
    have h := ih (c + 1) (w.emit (ConsolePutChar env (charToUShort (w.load c))))
      (by simp; omega)
    simpa using h

theorem putLoop_frame (env : Env) (w : World) (c i : Nat) (hi : i < w.CmdLine.length)
    (h16 : i < 65535) :
    (putLoop env w c i).CmdLine = w.CmdLine ∧ (putLoop env w c i).fault = w.fault := by
  have : ¬ (c ≤ i ∧ 65535 ≤ i) := by omega
  simp only [putLoop, this, if_false]
  by_cases hc : c ≤ i
  · exact putRange_frame env _ c w (by omega)
  · have : i + 1 - c = 0 := by omega
    rw [this]; exact ⟨rfl, rfl⟩

theorem PutCmdLine_frame (env : Env) (w : World) (i c st d : Nat)
    (hi : i < w.CmdLine.length) (h16 : i < 65535) :
    (PutCmdLine env w i c st d).CmdLine = w.CmdLine ∧
    (PutCmdLine env w i c st d).fault = w.fault := by
  have h := putLoop_frame env w (toU16 ((c : Int) + st)) i hi h16
  unfold PutCmdLine
  by_cases hd : d = 0
  · simp only [hd, ne_eq, not_true_eq_false, if_false, emit_CmdLine, emit_fault]; exact h
  · simp only [hd, ne_eq, not_false_eq_true, if_true, emit_CmdLine, emit_fault]; exact h

/-! ## Which branch of the loop body a key takes -/

theorem toU16_of_lt {n : Nat} (h : n < 65536) : toU16 (n : Int) = n := by
  unfold toU16; omega

theorem isprint_iff (c : Nat) : isprint c = true ↔ 32 ≤ c ∧ c ≤ 126 := by
  simp [isprint]

set_option maxRecDepth 100000 in
theorem and_ff00_of_lt : ∀ c, c < 256 → c &&& 0xFF00 = 0 := by decide

set_option maxRecDepth 100000 in
theorem and_ff_of_lt : ∀ c, c < 256 → c &&& 0xFF = c := by decide

theorem step_home (env : Env) (pw : Nat) (s : State) :
    step env pw s REX_KEY_HOME = keyHome env s := rfl

theorem step_end (env : Env) (pw : Nat) (s : State) :
    step env pw s REX_KEY_END = keyEnd env s := rfl

theorem step_escape (env : Env) (pw : Nat) (s : State) :
    step env pw s REX_KEY_ESCAPE = keyEscape env s := rfl

theorem step_left (env : Env) (pw : Nat) (s : State) :
    step env pw s REX_KEY_LEFT = keyLeft env s := rfl

theorem step_right (env : Env) (pw : Nat) (s : State) :
    step env pw s REX_KEY_RIGHT = keyRight env s := rfl

theorem step_backspace (env : Env) (pw : Nat) (s : State) :
    step env pw s REX_KEY_BACKSPACE = keyBackspace env s := rfl

theorem step_ssh_backspace (env : Env) (pw : Nat) (s : State) :
    step env pw s SSH_BACKSPACE = keyBackspace env s := rfl

theorem step_del (env : Env) (pw : Nat) (s : State) :
    step env pw s REX_KEY_DEL = keyDelete env s := rfl

theorem step_tab (env : Env) (pw : Nat) (s : State) :
    step env pw s REX_KEY_TAB = keyTab s := rfl

theorem step_enter (env : Env) (pw : Nat) (s : State) :
    step env pw s REX_KEY_NEWLINE = keyEnter env s := rfl

theorem step_printable (env : Env) (pw : Nat) (s : State) (c : Nat)
    (hc : isprint c = true) : step env pw s c = keyChar env pw s c := by
  have hb := (isprint_iff c).1 hc
  have h1 : c &&& 0xFF00 = 0 := and_ff00_of_lt c (by omega)
  unfold step
  simp only [REX_KEY_HOME, REX_KEY_END, REX_KEY_ESCAPE, REX_KEY_LEFT, REX_KEY_RIGHT,
    REX_KEY_BACKSPACE, SSH_BACKSPACE, REX_KEY_DEL, REX_KEY_TAB, REX_KEY_NEWLINE]
  repeat rw [if_neg (by omega)]
  rw [if_neg (by simp [hc])]

/-! ## Inserting a printable character -/

/-- The echo of an inserted character (source lines 961-985) leaves the buffer alone. -/
theorem echo_frame (env : Env) (pw : Nat) (w : World) (Index curIndex st ch : Nat)
    (hi : Index - 1 < w.CmdLine.length) (h16 : Index < 65536) (h1 : 1 ≤ Index) :
    let w1 :=
      if Index > curIndex + st then
        PutCmdLine env w (toU16 ((Index : Int) - 1)) (toU16 ((curIndex : Int) - 1))
          st (toU16 ((Index : Int) - ((curIndex : Int) + st)))
      else if pw ≠ 0 then w.emit (ConsolePutChar env 42)
      else
        let w := w.emit (ConsolePutChar env ch)
        if (curIndex + PROMPT_STR_LEN) % env.g_ColumnLen = 0 then
          (w.emit [32]).emit (BackwardCursor env 1)
        else w
    w1.CmdLine = w.CmdLine ∧ w1.fault = w.fault := by
  intro w1
  have e1 : toU16 ((Index : Int) - 1) = Index - 1 := by unfold toU16; omega
  simp only [w1]
  split
  · rw [e1]
    exact PutCmdLine_frame env w _ _ _ _ hi (by omega)
  · split
    · exact ⟨rfl, rfl⟩
    · split <;> exact ⟨rfl, rfl⟩

theorem keyChar_spec (env : Env) (pw : Nat) (s : State) (c : Nat)
    (hI : s.curIndex + s.StartIndex ≤ s.Index) (hne : s.Index ≠ LINE_LEN)
    (hcap : s.Index + 1 < s.w.CmdLine.length) (h16 : s.Index < 65535) (hc : c < 256) :
    ∃ s1, keyChar env pw s c = .cont s1 ∧ s1.Index = s.Index + 1 ∧
      s1.curIndex = s.curIndex + 1 ∧ s1.StartIndex = s.StartIndex ∧
      s1.w.CmdLine.length = s.w.CmdLine.length ∧ s1.w.fault = s.w.fault ∧
      ∀ j, s1.w.load j =
        if j = s.Index + 1 then 0
        else if j = s.curIndex + s.StartIndex then c
        else if s.curIndex + s.StartIndex < j ∧ j ≤ s.Index then s.w.load (j - 1)
        else s.w.load j := by
  have e1 : toU16 ((s.curIndex : Int) + s.StartIndex) = s.curIndex + s.StartIndex := by
    unfold toU16; omega
  have e2 : toU16 (((s.curIndex + s.StartIndex : Nat) : Int) + 1) = s.curIndex + s.StartIndex + 1 := by
    unfold toU16; omega
  have e3 : toU16 ((s.Index : Int) + 1) = s.Index + 1 := by unfold toU16; omega
  have e4 : toU16 (((s.curIndex + s.StartIndex + 1 : Nat) : Int) - s.StartIndex) = s.curIndex + 1 := by
    unfold toU16; omega
  have e5 : c &&& 0xFF = c := and_ff_of_lt c hc
  -- the buffer after the shift and the two stores
  obtain ⟨w2, hw2, hlen, hfault, hload⟩ : ∃ w2 : World,
      w2 = ((if s.Index ≠ s.curIndex + s.StartIndex then
          insertShift (s.Index + 1 - (s.curIndex + s.StartIndex)) s.Index s.w else s.w).store
          (s.curIndex + s.StartIndex) c).store (s.Index + 1) 0 ∧
      w2.CmdLine.length = s.w.CmdLine.length ∧ w2.fault = s.w.fault ∧
      ∀ j, w2.load j =
        if j = s.Index + 1 then 0
        else if j = s.curIndex + s.StartIndex then c
        else if s.curIndex + s.StartIndex < j ∧ j ≤ s.Index then s.w.load (j - 1)
        else s.w.load j := by
    refine ⟨_, rfl, ?_, ?_, ?_⟩
    · simp only [store_length]
      split
      · exact (insertShift_frame _ _ _ (by omega) hcap).1
      · rfl
    · have hl : (if s.Index ≠ s.curIndex + s.StartIndex then
          insertShift (s.Index + 1 - (s.curIndex + s.StartIndex)) s.Index s.w
          else s.w).CmdLine.length = s.w.CmdLine.length := by
        split
        · exact (insertShift_frame _ _ _ (by omega) hcap).1
        · rfl
      rw [store_fault_of_lt _ (by simp only [store_length]; omega),
        store_fault_of_lt _ (by omega)]
      split
      · exact (insertShift_frame _ _ _ (by omega) hcap).2.1
      · rfl
    · intro j
      have hl : (if s.Index ≠ s.curIndex + s.StartIndex then
          insertShift (s.Index + 1 - (s.curIndex + s.StartIndex)) s.Index s.w
          else s.w).CmdLine.length = s.w.CmdLine.length := by
        split
        · exact (insertShift_frame _ _ _ (by omega) hcap).1
        · rfl
      rw [load_store _ _ (by simp only [store_length]; omega), load_store _ _ (by omega)]
      by_cases h1 : j = s.Index + 1
      · simp [h1]
      · by_cases h2 : j = s.curIndex + s.StartIndex
        · simp [h1, h2]
        · simp only [h1, h2, if_false]
          by_cases h3 : s.Index ≠ s.curIndex + s.StartIndex
          · rw [if_pos h3]
            rw [insertShift_load _ _ _ _ (by omega) hcap]
            by_cases h4 : s.curIndex + s.StartIndex < j ∧ j ≤ s.Index
            · have : s.Index + 2 ≤ j + (s.Index + 1 - (s.curIndex + s.StartIndex)) ∧
                  j ≤ s.Index + 1 := by omega
              simp [h4, this]
            · have : ¬ (s.Index + 2 ≤ j + (s.Index + 1 - (s.curIndex + s.StartIndex)) ∧
                  j ≤ s.Index + 1) := by omega
              simp [h4, this]
          · have : ¬ (s.curIndex + s.StartIndex < j ∧ j ≤ s.Index) := by omega
            rw [if_neg h3]; simp [this]
  have hecho := echo_frame env pw w2 (s.Index + 1) (s.curIndex + 1) s.StartIndex c
    (by rw [hlen]; omega) (by omega) (by omega)
  simp only [keyChar, hne, ne_eq, not_false_eq_true, if_true, e1, e2, e3, e4, e5]
  rw [← hw2]
  refine ⟨_, rfl, rfl, rfl, rfl, ?_, ?_, ?_⟩
  · simp only; rw [hecho.1]; exact hlen
  · simp only; rw [hecho.2]; exact hfault
  · intro j
    have : ∀ (a b : World), a.CmdLine = b.CmdLine → a.load j = b.load j := by
      intro a b h; simp [World.load, h]
    simp only
    rw [this _ _ hecho.1]; exact hload j

/-! ## Typing at the end of the line -/

theorem take_succ_load (l : List Nat) (n : Nat) (h : n < l.length) :
    l.take (n + 1) = l.take n ++ [l.getD n 0] := by
  rw [List.take_succ]
  simp [List.getElem?_eq_getElem h, List.getD_eq_getElem?_getD]

theorem editLoop_cont {env : Env} {pw : Nat} {s s1 : State} {ch : Nat}
    (h : step env pw s ch = .cont s1) (rest : List Nat) :
    editLoop env pw s (ch :: rest) = editLoop env pw s1 rest := by
  simp [editLoop, h]

theorem editLoop_brk {env : Env} {pw : Nat} {s s1 : State} {ch : Nat}
    (h : step env pw s ch = .brk s1) (rest : List Nat) :
    editLoop env pw s (ch :: rest) = .returned s1 0 rest := by
  simp [editLoop, h]

theorem editLoop_ret {env : Env} {pw : Nat} {s s1 : State} {ch : Nat}
    (h : step env pw s ch = .ret s1) (rest : List Nat) :
    editLoop env pw s (ch :: rest) = .returned s1 0 rest := by
  simp [editLoop, h]

/-- One printable character typed with the cursor at the end of the line. -/
theorem typeChar_tail (env : Env) (pw : Nat) (s : State) (c : Nat)
    (htail : s.curIndex + s.StartIndex = s.Index) (hlen : s.Index < LINE_LEN)
    (hcap : s.Index + 1 < s.w.CmdLine.length) (hc : isprint c = true) :
    ∃ s1, step env pw s c = .cont s1 ∧ s1.Index = s.Index + 1 ∧
      s1.curIndex = s.curIndex + 1 ∧ s1.StartIndex = s.StartIndex ∧
      s1.w.CmdLine.length = s.w.CmdLine.length ∧ s1.w.fault = s.w.fault ∧
      s1.w.CmdLine.take s1.Index = s.w.CmdLine.take s.Index ++ [c] ∧
      s1.w.load s1.Index = 0 := by
  have hb := (isprint_iff c).1 hc
  have hL : LINE_LEN = 250 := rfl
  obtain ⟨s1, h1, hI, hC, hS, hl, hf, hload⟩ :=
    keyChar_spec env pw s c (by omega) (by omega) hcap (by omega) (by omega)
  refine ⟨s1, by rw [step_printable env pw s c hc]; exact h1, hI, hC, hS, hl, hf, ?_, ?_⟩
  · rw [hI, take_succ_load _ _ (by omega)]
    have h0 : s1.w.CmdLine.getD s.Index 0 = c := by
      have := hload s.Index
      simp only [World.load] at this
      rw [this, if_neg (by omega), if_pos (by omega)]
    rw [h0]
    congr 1
    apply take_eq_of_load _ hl
    intro j hj
    have := hload j
    simp only [World.load] at this
    rw [this, if_neg (by omega), if_neg (by omega), if_neg (by omega)]
  · rw [hI, hload, if_pos rfl]

/-- A run of printable characters typed with the cursor at the end of the line. -/
theorem typeChars_tail (env : Env) (pw : Nat) : ∀ (chars : List Nat) (s : State),
    s.curIndex + s.StartIndex = s.Index → s.Index + chars.length ≤ LINE_LEN →
    s.Index + chars.length < s.w.CmdLine.length → (∀ c ∈ chars, isprint c = true) →
    ∃ s1, (∀ rest, editLoop env pw s (chars ++ rest) = editLoop env pw s1 rest) ∧
      s1.Index = s.Index + chars.length ∧ s1.curIndex = s.curIndex + chars.length ∧
      s1.StartIndex = s.StartIndex ∧ s1.w.CmdLine.length = s.w.CmdLine.length ∧
      s1.w.fault = s.w.fault ∧
      s1.w.CmdLine.take s1.Index = s.w.CmdLine.take s.Index ++ chars ∧
      (chars ≠ [] → s1.w.load s1.Index = 0) := by
  intro chars
  induction chars with
  | nil =>
    intro s _ _ _ _
    exact ⟨s, fun _ => rfl, rfl, rfl, rfl, rfl, rfl, by simp, fun h => absurd rfl h⟩
  | cons c cs ih =>
    intro s htail hlen hcap hp
    simp only [List.length_cons] at hlen hcap
    have hL : LINE_LEN = 250 := rfl
    obtain ⟨s1, h1, hI, hC, hS, hl, hf, htake, hz⟩ :=
      typeChar_tail env pw s c htail (by omega) (by omega) (hp c (by simp))
    obtain ⟨s2, h2, hI2, hC2, hS2, hl2, hf2, htake2, hz2⟩ :=
      ih s1 (by omega) (by omega) (by omega) (fun x hx => hp x (by simp [hx]))
    refine ⟨s2, ?_, ?_, ?_, ?_, ?_, ?_, ?_, ?_⟩
    · intro rest
      rw [List.cons_append, editLoop_cont h1, h2]
    · simp only [List.length_cons]; omega
    · simp only [List.length_cons]; omega
    · rw [hS2, hS]
    · rw [hl2, hl]
    · rw [hf2, hf]
    · rw [htake2, htake]; simp
    · intro _
      by_cases hcs : cs = []
      · subst hcs
        simp only [List.length_nil, Nat.add_zero] at hI2
        have hs : s2.w.CmdLine.take s2.Index = s1.w.CmdLine.take s1.Index := by
          rw [htake2]; simp
        have : s2.w.load s2.Index = s1.w.load s1.Index := by
          have e := h2 []
          simp only [List.nil_append, editLoop] at e
          injection e with e
          rw [e]
        rw [this]; exact hz
      · exact hz2 hcs

/-! ## The Enter key -/

theorem ConsolePutChar_ascii (env : Env) {ch : Nat} (h : ch < 128) :
    ConsolePutChar env ch = [ch] := by
  have : ch % 256 = ch := Nat.mod_eq_of_lt (by omega)
  unfold ConsolePutChar isascii
  cases env.Opened <;> simp [h, this]

theorem newlines_eq (env : Env) (n : Nat) : newlines env n = List.replicate n 10 := by
  induction n with
  | zero => rfl
  | succ n ih =>
    simp only [newlines, ih, REX_KEY_NEWLINE]
    rw [ConsolePutChar_ascii env (by omega)]
    rfl

theorem load_of_take {l xs : List Nat} {n : Nat} (h : l.take n = xs) (j : Nat)
    (hj : j < n) : l.getD j 0 = xs.getD j 0 := by
  subst h
  simp [List.getD_eq_getElem?_getD, List.getElem?_take, hj]

theorem enterFinish_reject (env : Env) (s : State) (w : World)
    (h : MAX_CMD_SIZE - 1 ≤ s.Index) : enterFinish env s w = .ret { s with w := w } := by
  simp [enterFinish, h]

/-- The terminating Enter below the length limit: sentinel, newline, extra newlines. -/
theorem enterFinish_accept (env : Env) (s : State) (w : World)
    (h : s.Index < MAX_CMD_SIZE - 1) (hcap : s.Index < w.CmdLine.length)
    (hcur : s.curIndex ≤ s.Index + 1) :
    ∃ s1, enterFinish env s w = .brk s1 ∧ s1.Index = s.Index + 1 ∧
      s1.curIndex = s.curIndex ∧ s1.StartIndex = s.StartIndex ∧
      s1.w.CmdLine = w.CmdLine.set s.Index 0 ∧ s1.w.fault = w.fault ∧
      s1.w.out = w.out ++ 10 :: List.replicate
        ((s.Index + 1 + PROMPT_STR_LEN) / env.g_ColumnLen -
          (s.curIndex + PROMPT_STR_LEN) / env.g_ColumnLen) 10 := by
  have hM : MAX_CMD_SIZE = 255 := rfl
  have e1 : toU16 ((s.Index : Int) + 1) = s.Index + 1 := by unfold toU16; omega
  have hmono : (s.curIndex + PROMPT_STR_LEN) / env.g_ColumnLen ≤
      (s.Index + 1 + PROMPT_STR_LEN) / env.g_ColumnLen :=
    Nat.div_le_div_right (by omega)
  have hneg : ¬ (((((s.Index + 1 + PROMPT_STR_LEN) / env.g_ColumnLen : Nat) : Int) -
      (((s.curIndex + PROMPT_STR_LEN) / env.g_ColumnLen : Nat) : Int)) < 0) := by omega
  have htn : ((((s.Index + 1 + PROMPT_STR_LEN) / env.g_ColumnLen : Nat) : Int) -
      (((s.curIndex + PROMPT_STR_LEN) / env.g_ColumnLen : Nat) : Int)).toNat =
      (s.Index + 1 + PROMPT_STR_LEN) / env.g_ColumnLen -
        (s.curIndex + PROMPT_STR_LEN) / env.g_ColumnLen := by omega
  have hnot : ¬ (MAX_CMD_SIZE - 1 ≤ s.Index) := by omega
  simp only [enterFinish, ge_iff_le, hnot, if_false, e1, hneg, htn]
  refine ⟨_, rfl, rfl, rfl, rfl, ?_, ?_, ?_⟩
  · simp [World.store, hcap]
  · simp [store_fault_of_lt _ hcap]
  · simp only [emit_out, store_out, newlines_eq, REX_KEY_NEWLINE]
    rw [ConsolePutChar_ascii env (by omega)]
    simp

/-- Enter on a line that does not qualify as a continuation goes to the final part. -/
theorem keyEnter_plain (env : Env) (s : State)
    (hnc : ¬ (s.Index > s.StartIndex ∧ s.w.load (s.Index - 1) = 92)) :
    keyEnter env s = enterFinish env s (if s.Index > s.StartIndex then
      s.w.touch (s.Index - 1) else s.w) := by
  unfold keyEnter
  by_cases h : s.Index > s.StartIndex
  · have : ¬ s.w.load (s.Index - 1) = 92 := fun e => hnc ⟨h, e⟩
    simp [h, this]
  · simp [h]

/-- Enter after a trailing backslash that is not the only character of the line. -/
theorem keyEnter_continue (env : Env) (s : State) (hgt : s.Index > s.StartIndex)
    (hbs : s.w.load (s.Index - 1) = 92) (hne : s.Index ≠ 1)
    (hcap : s.Index ≤ s.w.CmdLine.length) (h16 : s.Index < 65536) :
    ∃ s1, keyEnter env s = .cont s1 ∧ s1.Index = s.Index - 1 ∧
      s1.StartIndex = s.Index - 1 ∧ s1.curIndex = 0 ∧ s1.w.CmdLine = s.w.CmdLine ∧
      s1.w.fault = s.w.fault := by
  have e1 : toU16 ((s.Index : Int) - 1) = s.Index - 1 := by unfold toU16; omega
  have ht : s.w.touch (s.Index - 1) = s.w := touch_of_lt (by omega)
  simp only [keyEnter, hgt, if_true, ht, hbs, hne, if_false, e1]
  refine ⟨_, rfl, rfl, rfl, rfl, ?_, ?_⟩
  · simp only [emit_CmdLine]
    split
    · exact (putLoop_frame env s.w _ _ (by omega) (by omega)).1
    · rfl
  · simp only [emit_fault]
    split
    · exact (putLoop_frame env s.w _ _ (by omega) (by omega)).2
    · rfl

/-! ## Round trip of a typed line (C1) -/

theorem keyChar_full (env : Env) (pw : Nat) (s : State) (c : Nat)
    (h : s.Index = LINE_LEN) :
    keyChar env pw s c = .cont { s with w := s.w.emit [REX_KEY_BELL] } := by
  have : ConsoleBell env = [REX_KEY_BELL] := by
    unfold ConsoleBell REX_KEY_BELL; exact ConsolePutChar_ascii env (by omega)
  simp [keyChar, h, this]

theorem typed_then_enter (env : Env) (pw : Nat) (buf chars : List Nat)
    (hcap : buf.length = MAX_CMD_SIZE) (hp : ∀ c ∈ chars, isprint c = true)
    (hn : chars.length ≤ LINE_LEN) :
    ∃ s, (∀ rest, editLoop env pw (initState buf 0) (chars ++ rest) = editLoop env pw s rest) ∧
      s.Index = chars.length ∧ s.curIndex = chars.length ∧ s.StartIndex = 0 ∧
      s.w.CmdLine.length = MAX_CMD_SIZE ∧ s.w.fault = false ∧
      s.w.CmdLine.take chars.length = chars ∧
      (chars ≠ [] → s.w.load chars.length = 0) := by
  have hL : LINE_LEN = 250 := rfl
  have hM : MAX_CMD_SIZE = 255 := rfl
  obtain ⟨s, h, hI, hC, hS, hl, hf, ht, hz⟩ :=
    typeChars_tail env pw chars (initState buf 0) rfl
      (by simp only [initState]; omega) (by simp only [initState]; omega) hp
  simp only [initState, Nat.zero_add, List.take_zero, List.nil_append] at hI hC hS hl hf ht
  refine ⟨s, h, hI, hC, hS, by rw [hl, hcap], hf, by rw [← hI]; exact ht, ?_⟩
  intro hne
  rw [← hI]; exact hz hne

theorem take_set_self (l : List Nat) (n v : Nat) : (l.set n v).take n = l.take n := by
  apply take_eq_of_load _ (by simp)
  intro j hj
  have : ¬ n = j := by omega
  simp [List.getD_eq_getElem?_getD, List.getElem?_set, this]

theorem getD_set_self (l : List Nat) (n v : Nat) (h : n < l.length) :
    (l.set n v).getD n 0 = v := by
  simp [List.getD_eq_getElem?_getD, List.getElem?_set, h]

/-- Enter at the end of a typed line that does not end in a backslash. -/
theorem enter_after_typed (env : Env) (pw : Nat) (s : State) (rest : List Nat)
    (hI : s.Index < MAX_CMD_SIZE - 1) (hcap : s.w.CmdLine.length = MAX_CMD_SIZE)
    (hcur : s.curIndex ≤ s.Index + 1)
    (hnc : ¬ (s.Index > s.StartIndex ∧ s.w.load (s.Index - 1) = 92)) :
    ∃ s1, editLoop env pw s (REX_KEY_NEWLINE :: rest) = .returned s1 0 rest ∧
      s1.Index = s.Index + 1 ∧ s1.curIndex = s.curIndex ∧ s1.StartIndex = s.StartIndex ∧
      s1.w.CmdLine = s.w.CmdLine.set s.Index 0 ∧ s1.w.fault = s.w.fault := by
  have hM : MAX_CMD_SIZE = 255 := rfl
  have hw : (if s.Index > s.StartIndex then s.w.touch (s.Index - 1) else s.w) = s.w := by
    split
    · exact touch_of_lt (by omega)
    · rfl
  obtain ⟨s1, h1, hI1, hC1, hS1, hb1, hf1, _⟩ :=
    enterFinish_accept env s s.w hI (by omega) hcur
  have hstep : step env pw s REX_KEY_NEWLINE = .brk s1 := by
    rw [step_enter, keyEnter_plain env s hnc, hw]; exact h1
  exact ⟨s1, editLoop_brk hstep rest, hI1, hC1, hS1, hb1, hf1⟩

/-! ## C1 -/

theorem mainBuf_length : mainBuf.length = MAX_CMD_SIZE := List.length_replicate _ _

theorem getD_replicate_lt (n j v : Nat) (h : j < n) : (List.replicate n v).getD j 0 = v := by
  simp [List.getD_eq_getElem?_getD, List.getElem?_replicate, h]

/-- C1 (amended): starting from an empty line, for any sequence of at most
LINE_LEN (250) printable characters with no control keys, the buffer content
`[0:length]` after they are processed equals the typed characters in order; and
unless the last character is a backslash, Enter then ends the read with that
content followed by the sentinel 0. -/
theorem C1_typed_line_roundtrip (env : Env) (pw : Nat) (buf chars : List Nat)
    (_hW : 0 < env.g_ColumnLen) (hcap : buf.length = MAX_CMD_SIZE) (hp : ∀ c ∈ chars, isprint c = true)
    (hn : chars.length ≤ LINE_LEN) :
    (∃ s, GetCmdLine env buf 0 pw chars = .reading s ∧ s.Index = chars.length ∧
      s.content = chars ∧ s.w.fault = false) ∧
    (chars.getLast? ≠ some 92 →
      ∃ s, GetCmdLine env buf 0 pw (chars ++ [REX_KEY_NEWLINE]) = .returned s 0 [] ∧
        s.w.CmdLine.take chars.length = chars ∧ s.w.load chars.length = 0 ∧
        s.w.fault = false) := by
  have hL : LINE_LEN = 250 := rfl
  have hM : MAX_CMD_SIZE = 255 := rfl
  obtain ⟨s, h, hI, hC, hS, hl, hf, ht, hz⟩ := typed_then_enter env pw buf chars hcap hp hn
  constructor
  · refine ⟨s, ?_, hI, ?_, hf⟩
    · have := h []
      simpa [GetCmdLine, editLoop] using this
    · simp only [State.content, hI]; exact ht
  · intro hlast
    have hnc : ¬ (s.Index > s.StartIndex ∧ s.w.load (s.Index - 1) = 92) := by
      rintro ⟨hgt, hbs⟩
      apply hlast
      have hpos : 0 < chars.length := by omega
      have e := load_of_take ht (chars.length - 1) (by omega)
      rw [hI] at hbs
      simp only [World.load] at hbs
      rw [hbs] at e
      rw [List.getLast?_eq_getElem?]
      simp only [List.getD_eq_getElem?_getD] at e
      rw [List.getElem?_eq_getElem (by omega)] at e ⊢
      simp only [Option.getD_some] at e
      rw [← e]
    obtain ⟨s1, h1, _, _, _, hb1, hf1⟩ :=
      enter_after_typed env pw s [] (by omega) hl (by omega) hnc
    refine ⟨s1, ?_, ?_, ?_, ?_⟩
    · simp only [GetCmdLine]; rw [h, h1]
    · rw [hb1, hI, take_set_self]; exact ht
    · simp only [World.load]; rw [hb1, hI]; exact getD_set_self _ _ _ (by omega)
    · rw [hf1, hf]

/-- C1 witness: the line `hi` typed into a buffer of `main`. -/
theorem C1_typed_line_roundtrip_witness :
    (∃ s, GetCmdLine mainEnv mainBuf 0 0 [104, 105] = .reading s ∧ s.Index = 2 ∧
      s.content = [104, 105] ∧ s.w.fault = false) ∧
    ((GetCmdLine mainEnv mainBuf 0 0 [104, 105, 10]).state.w.CmdLine.take 2 = [104, 105]) := by
  have h := C1_typed_line_roundtrip mainEnv 0 mainBuf [104, 105] (by decide) mainBuf_length
    (by decide) (by decide)
  refine ⟨h.1, ?_⟩
  obtain ⟨s, hs, ht, _, _⟩ := h.2 (by decide)
  have e : [104, 105] ++ [REX_KEY_NEWLINE] = [104, 105, 10] := rfl
  rw [e] at hs
  rw [hs]; exact ht

/-- C1 counterexample: 251 printable characters and Enter. The read ends, the
buffer holds 250 of them followed by the sentinel, so no prefix of the buffer is
the typed sequence. -/
theorem C1_counterexample_251_chars :
    (∀ c ∈ List.replicate 251 97, isprint c = true) ∧
    ∃ s, GetCmdLine mainEnv mainBuf 0 0 (List.replicate 251 97 ++ [REX_KEY_NEWLINE]) =
        .returned s 0 [] ∧
      s.w.CmdLine.take 250 = List.replicate 250 97 ∧ s.w.load 250 = 0 ∧
      ∀ n, s.w.CmdLine.take n ≠ List.replicate 251 97 := by
  have hL : LINE_LEN = 250 := rfl
  have hM : MAX_CMD_SIZE = 255 := rfl
  have hp : ∀ c ∈ List.replicate 250 97, isprint c = true := by
    intro c hc; rw [List.eq_of_mem_replicate hc]; rfl
  refine ⟨by intro c hc; rw [List.eq_of_mem_replicate hc]; rfl, ?_⟩
  obtain ⟨s, h, hI, hC, hS, hl, hf, ht, hz⟩ :=
    typed_then_enter mainEnv 0 mainBuf (List.replicate 250 97) mainBuf_length hp
      (by rw [List.length_replicate]; decide)
  simp only [List.length_replicate] at hI hC ht hz
  -- the 251st character finds the line full
  have hbell : step mainEnv 0 s 97 = .cont { s with w := s.w.emit [REX_KEY_BELL] } := by
    rw [step_printable _ _ _ _ (by rfl)]; exact keyChar_full _ _ _ _ hI
  have hnc : ¬ (s.Index > s.StartIndex ∧ s.w.load (s.Index - 1) = 92) := by
    rintro ⟨_, hbs⟩
    have e := load_of_take ht 249 (by omega)
    rw [hI] at hbs
    simp only [World.load] at hbs
    rw [hbs, getD_replicate_lt _ _ _ (by omega)] at e
    omega
  obtain ⟨s1, h1, _, _, _, hb1, _⟩ :=
    enter_after_typed mainEnv 0 { s with w := s.w.emit [REX_KEY_BELL] } []
      (by simp only [hI]; omega) hl (by simp only [hI, hC]; omega) hnc
  simp only [emit_CmdLine] at hb1
  have hz1 : s1.w.load 250 = 0 := by
    simp only [World.load]; rw [hb1, hI]; exact getD_set_self _ _ _ (by omega)
  refine ⟨s1, ?_, ?_, hz1, ?_⟩
  · have e : List.replicate 251 97 ++ [REX_KEY_NEWLINE] =
        List.replicate 250 97 ++ (97 :: [REX_KEY_NEWLINE]) := by
      rw [show (251 : Nat) = 250 + 1 from rfl, List.replicate_succ', List.append_assoc]
      rfl
    simp only [GetCmdLine]
    rw [e, h, editLoop_cont hbell, h1]
  · rw [hb1, hI, take_set_self]; exact ht
  · intro n hn
    have hlen : 251 ≤ n := by
      have := congrArg List.length hn
      simp only [List.length_take, List.length_replicate] at this
      omega
    have e := load_of_take hn 250 (by omega)
    simp only [World.load] at hz1
    rw [hz1, getD_replicate_lt _ _ _ (by omega)] at e
    omega

/-! ## C2 -/

/-- C2 (amended): starting from an empty line, typing a, b, c, backslash and then
Enter does not terminate `GetCmdLine` and advances segmentStart to 3 (length
becomes 3 too, so the marker is no longer part of the content); typing d, e, f
and Enter afterwards terminates the read with final content `abcdef`, the
sentinel 0 at index 6 and the variable `Index` at 7: the first character typed
after the continuation overwrites the marker. -/
theorem C2_continuation_drops_marker (env : Env) (pw : Nat) (buf : List Nat)
    (_hW : 0 < env.g_ColumnLen) (hcap : buf.length = MAX_CMD_SIZE) :
    (∃ s, GetCmdLine env buf 0 pw [97, 98, 99, 92, REX_KEY_NEWLINE] = .reading s ∧
      s.StartIndex = 3 ∧ s.Index = 3 ∧ s.curIndex = 0 ∧ s.w.fault = false) ∧
    (∃ s, GetCmdLine env buf 0 pw
        [97, 98, 99, 92, REX_KEY_NEWLINE, 100, 101, 102, REX_KEY_NEWLINE] = .returned s 0 [] ∧
      s.w.CmdLine.take 7 = [97, 98, 99, 100, 101, 102, 0] ∧ s.Index = 7 ∧
      s.w.fault = false) := by
  have hL : LINE_LEN = 250 := rfl
  have hM : MAX_CMD_SIZE = 255 := rfl
  obtain ⟨s1, h1, hI1, hC1, hS1, hl1, hf1, ht1, hz1⟩ :=
    typed_then_enter env pw buf [97, 98, 99, 92] hcap (by decide) (by decide)
  simp only [List.length_cons, List.length_nil] at hI1 hC1 ht1
  have hbs : s1.w.load (s1.Index - 1) = 92 := by
    have e := load_of_take ht1 3 (by omega)
    rw [hI1]; exact e
  obtain ⟨s2, h2, hI2, hS2, hC2, hb2, hf2⟩ :=
    keyEnter_continue env s1 (by omega) hbs (by omega) (by omega) (by omega)
  have hstep2 : step env pw s1 REX_KEY_NEWLINE = .cont s2 := by rw [step_enter]; exact h2
  obtain ⟨s3, h3, hI3, hC3, hS3, hl3, hf3, ht3, hz3⟩ :=
    typeChars_tail env pw [100, 101, 102] s2 (by omega)
      (by simp only [List.length_cons, List.length_nil]; omega)
      (by simp only [List.length_cons, List.length_nil]; rw [hb2]; omega) (by decide)
  simp only [List.length_cons, List.length_nil] at hI3 hC3
  have ht3' : s3.w.CmdLine.take 6 = [97, 98, 99, 100, 101, 102] := by
    have e3 : s2.w.CmdLine.take 3 = [97, 98, 99] := by
      have := congrArg (List.take 3) ht1
      rw [List.take_take] at this
      rw [hb2]; exact this
    have : s3.Index = 6 := by omega
    rw [this] at ht3
    rw [ht3, show s2.Index = 3 by omega, e3]; rfl
  have hnc : ¬ (s3.Index > s3.StartIndex ∧ s3.w.load (s3.Index - 1) = 92) := by
    rintro ⟨_, hb⟩
    have e := load_of_take ht3' 5 (by omega)
    rw [show s3.Index - 1 = 5 by omega] at hb
    simp only [World.load] at hb
    rw [hb] at e
    exact absurd e (by decide)
  obtain ⟨s4, h4, hI4, _, _, hb4, hf4⟩ :=
    enter_after_typed env pw s3 [] (by omega) (by rw [hl3, hb2, hl1]) (by omega) hnc
  constructor
  · refine ⟨s2, ?_, by omega, by omega, hC2, by rw [hf2, hf1]⟩
    have e : [97, 98, 99, 92, REX_KEY_NEWLINE] = [97, 98, 99, 92] ++ [REX_KEY_NEWLINE] := rfl
    simp only [GetCmdLine]
    rw [e, h1, editLoop_cont hstep2]; rfl
  · refine ⟨s4, ?_, ?_, by omega, by rw [hf4, hf3, hf2, hf1]⟩
    · have e : [97, 98, 99, 92, REX_KEY_NEWLINE, 100, 101, 102, REX_KEY_NEWLINE] =
          [97, 98, 99, 92] ++ (REX_KEY_NEWLINE :: ([100, 101, 102] ++ [REX_KEY_NEWLINE])) := rfl
      simp only [GetCmdLine]
      rw [e, h1, editLoop_cont hstep2, h3, h4]
    · have h6 : s3.Index = 6 := by omega
      have hlen : 6 < (s3.w.CmdLine.set 6 0).length := by
        rw [List.length_set, hl3, hb2, hl1]; omega
      rw [hb4, h6, take_succ_load _ 6 hlen, take_set_self, ht3',
        getD_set_self _ _ _ (by rw [hl3, hb2, hl1]; omega)]
      rfl

/-- C2 witness: the two runs on a buffer of `main`. -/
theorem C2_continuation_drops_marker_witness :
    (GetCmdLine mainEnv mainBuf 0 0 [97, 98, 99, 92, 10]).state.StartIndex = 3 ∧
    (GetCmdLine mainEnv mainBuf 0 0 [97, 98, 99, 92, 10, 100, 101, 102, 10]).state.w.CmdLine.take 7
      = [97, 98, 99, 100, 101, 102, 0] := by
  obtain ⟨⟨s, hs, h3, _⟩, ⟨t, ht, h7, _⟩⟩ :=
    C2_continuation_drops_marker mainEnv 0 mainBuf (by decide) mainBuf_length
  have e1 : [97, 98, 99, 92, REX_KEY_NEWLINE] = [97, 98, 99, 92, 10] := rfl
  have e2 : [97, 98, 99, 92, REX_KEY_NEWLINE, 100, 101, 102, REX_KEY_NEWLINE] =
      [97, 98, 99, 92, 10, 100, 101, 102, 10] := rfl
  rw [e1] at hs
  rw [e2] at ht
  rw [hs, ht]
  exact ⟨h3, h7⟩

set_option maxRecDepth 100000 in
/-- C2 counterexample: after a, b, c, backslash, Enter, d, e, f, Enter the read has
returned and the buffer starts with `abcdef` and the sentinel; its first seven
cells are not `abc`, backslash, `def`. -/
theorem C2_counterexample_marker_not_kept :
    (GetCmdLine mainEnv mainBuf 0 0 [97, 98, 99, 92, 10, 100, 101, 102, 10]).isReturned = true ∧
    (GetCmdLine mainEnv mainBuf 0 0 [97, 98, 99, 92, 10, 100, 101, 102, 10]).state.w.CmdLine.take 7
      = [97, 98, 99, 100, 101, 102, 0] ∧
    (GetCmdLine mainEnv mainBuf 0 0 [97, 98, 99, 92, 10, 100, 101, 102, 10]).state.w.CmdLine.take 7
      ≠ [97, 98, 99, 92, 100, 101, 102] := by
  decide

/-! ## Deleting a character -/

theorem load_congr {a b : World} (h : a.CmdLine = b.CmdLine) (j : Nat) :
    a.load j = b.load j := by
  simp [World.load, h]

/-- `EraseDelChar` with the deleted position before the end of the line. -/
theorem EraseDelChar_mid (env : Env) (w : World) (cur Index : Nat) (hlt : cur < Index)
    (hmax : Index < MAX_CMD_SIZE) (hcap : Index < w.CmdLine.length) :
    (EraseDelChar env w cur Index).CmdLine.length = w.CmdLine.length ∧
    (EraseDelChar env w cur Index).fault = w.fault ∧
    ∀ j, (EraseDelChar env w cur Index).load j =
      if cur ≤ j ∧ j < Index then w.load (j + 1) else w.load j := by
  have hM : MAX_CMD_SIZE = 255 := rfl
  have hg : ¬ (cur ≥ MAX_CMD_SIZE ∨ Index ≥ MAX_CMD_SIZE) := by omega
  have hge : ¬ cur ≥ Index := by omega
  have hfr := eraseShift_frame env (Index - cur) cur w (by omega)
  have hld := eraseShift_load env (Index - cur) cur w
  have hcl : (EraseDelChar env w cur Index).CmdLine =
      (eraseShift env (Index - cur) cur w).CmdLine := by
    simp only [EraseDelChar, hg, hge, if_false]
    split <;> rfl
  have hfl : (EraseDelChar env w cur Index).fault =
      (eraseShift env (Index - cur) cur w).fault := by
    simp only [EraseDelChar, hg, hge, if_false]
    split <;> rfl
  refine ⟨by rw [hcl]; exact hfr.1, by rw [hfl]; exact hfr.2, ?_⟩
  intro j
  rw [load_congr hcl j, hld j (by omega)]
  by_cases h : cur ≤ j ∧ j < Index
  · have : cur ≤ j ∧ j < cur + (Index - cur) := by omega
    rw [if_pos this, if_pos h]
  · have : ¬ (cur ≤ j ∧ j < cur + (Index - cur)) := by omega
    rw [if_neg this, if_neg h]

/-- `EraseDelChar` with the deleted position at or after the end of the line. -/
theorem EraseDelChar_tail (env : Env) (w : World) (cur Index : Nat) (hge : Index ≤ cur)
    (hmax : cur < MAX_CMD_SIZE) (hpos : 0 < Index) (hcap : Index ≤ w.CmdLine.length) :
    (EraseDelChar env w cur Index).CmdLine = w.CmdLine.set (Index - 1) 0 ∧
    (EraseDelChar env w cur Index).fault = w.fault ∧
    (EraseDelChar env w cur Index).out = w.out ++ EraseChar env := by
  have hM : MAX_CMD_SIZE = 255 := rfl
  have hg : ¬ (cur ≥ MAX_CMD_SIZE ∨ Index ≥ MAX_CMD_SIZE) := by omega
  have h0 : Index ≠ 0 := by omega
  have hc : Index - 1 < (w.emit (EraseChar env)).CmdLine.length := by
    simp only [emit_CmdLine]; omega
  simp only [EraseDelChar, hg, ge_iff_le, hge, h0, if_true, if_false]
  have hc' : Index - 1 < w.CmdLine.length := by omega
  refine ⟨?_, ?_, ?_⟩
  · simp [World.store, hc']
  · rw [store_fault_of_lt _ hc]; rfl
  · simp

/-- The Left key where it acts. -/
theorem keyLeft_spec (env : Env) (s : State) (hgt : s.Index > s.StartIndex)
    (hcur : s.curIndex ≠ 0) (h16 : s.curIndex < 65536) :
    keyLeft env s = .cont { s with
      w := s.w.emit (stepBack env (s.curIndex + PROMPT_STR_LEN)),
      curIndex := s.curIndex - 1 } := by
  have e : toU16 ((s.curIndex : Int) - 1) = s.curIndex - 1 := by unfold toU16; omega
  simp [keyLeft, hgt, hcur, e]

/-- The Right key where it acts. -/
theorem keyRight_spec (env : Env) (s : State) (hgt : s.Index > s.curIndex + s.StartIndex)
    (h16 : s.curIndex < 65535) :
    keyRight env s = .cont { s with
      w := s.w.emit
        (if (s.curIndex + PROMPT_STR_LEN + 1) % env.g_ColumnLen = 0 then
          MoveCursorOneLineDown env ++ BackwardCursor env ((env.g_ColumnLen : Int) - 1)
        else ForwardCursor env 1),
      curIndex := s.curIndex + 1 } := by
  have e : toU16 ((s.curIndex : Int) + 1) = s.curIndex + 1 := by unfold toU16; omega
  simp [keyRight, hgt, e]

/-- The Backspace key where it acts, on a line within the buffer. -/
theorem keyBackspace_spec (env : Env) (s : State)
    (hI : s.curIndex + s.StartIndex ≤ s.Index) (hgt : s.Index > s.StartIndex)
    (hcur : s.curIndex ≠ 0) (hmax : s.Index < MAX_CMD_SIZE)
    (hcap : s.Index < s.w.CmdLine.length) :
    ∃ s2, keyBackspace env s = .cont s2 ∧ s2.Index = s.Index - 1 ∧
      s2.curIndex = s.curIndex - 1 ∧ s2.StartIndex = s.StartIndex ∧
      s2.w.CmdLine.length = s.w.CmdLine.length ∧ s2.w.fault = s.w.fault ∧
      (∀ j, j < s.Index - 1 → s2.w.load j =
        if s.curIndex - 1 + s.StartIndex ≤ j then s.w.load (j + 1) else s.w.load j) ∧
      s2.w.load (s.Index - 1) =
        if s.curIndex + s.StartIndex = s.Index then 0 else s.w.load s.Index := by
  have hM : MAX_CMD_SIZE = 255 := rfl
  have e1 : toU16 ((s.curIndex : Int) - 1) = s.curIndex - 1 := by unfold toU16; omega
  have e2 : toU16 ((s.Index : Int) - 1) = s.Index - 1 := by unfold toU16; omega
  have e3 : toU16 ((s.curIndex : Int) - 1 + s.StartIndex) = s.curIndex - 1 + s.StartIndex := by
    unfold toU16; omega
  have hc : s.Index > s.StartIndex ∧ s.curIndex ≠ 0 := ⟨hgt, hcur⟩
  by_cases hmid : s.curIndex + s.StartIndex ≠ s.Index
  · obtain ⟨hl, hf, hld⟩ := EraseDelChar_mid env
      (s.w.emit (stepBack env (s.curIndex + PROMPT_STR_LEN)))
      (s.curIndex - 1 + s.StartIndex) s.Index (by omega) hmax (by simpa using hcap)
    simp only [keyBackspace, hc, hmid, and_self, ne_eq, not_false_eq_true, if_true, e1, e2, e3]
    refine ⟨_, rfl, rfl, rfl, rfl, hl, hf, ?_, ?_⟩
    · intro j hj
      simp only
      rw [hld j]
      by_cases h : s.curIndex - 1 + s.StartIndex ≤ j
      · rw [if_pos ⟨h, by omega⟩, if_pos h]; rfl
      · have : ¬ (s.curIndex - 1 + s.StartIndex ≤ j ∧ j < s.Index) := by omega
        rw [if_neg this, if_neg h]; rfl
    · simp only
      rw [hld (s.Index - 1), if_pos (by omega), show s.Index - 1 + 1 = s.Index by omega]
      simp
  · have hmid' : s.curIndex + s.StartIndex = s.Index := by omega
    have hnot : ¬ s.Index > MAX_CMD_SIZE := by omega
    simp only [keyBackspace, hc, hmid', and_self, ne_eq, not_true_eq_false, if_true, if_false,
      hnot, e1, e2]
    have hs : ∀ bs : List Nat, s.Index - 1 < (s.w.emit bs).CmdLine.length := by
      intro bs; simp only [emit_CmdLine]; omega
    refine ⟨_, rfl, rfl, rfl, rfl, ?_, ?_, ?_, ?_⟩
    · simp
    · simp only; rw [store_fault_of_lt _ (hs _)]; rfl
    · intro j hj
      simp only
      rw [load_store _ _ (hs _), if_neg (show ¬ j = s.Index - 1 by omega), emit_load,
        if_neg (show ¬ s.curIndex - 1 + s.StartIndex ≤ j by omega)]
    · simp only
      rw [load_store _ _ (hs _), if_pos rfl]

/-- The Delete key with the cursor before the end of the content. -/
theorem keyDelete_spec (env : Env) (s : State)
    (hI : s.curIndex + s.StartIndex < s.Index) (hmax : s.Index < MAX_CMD_SIZE)
    (hcap : s.Index < s.w.CmdLine.length) :
    ∃ s2, keyDelete env s = .cont s2 ∧ s2.Index = s.Index - 1 ∧
      s2.curIndex = s.curIndex ∧ s2.StartIndex = s.StartIndex ∧
      s2.w.CmdLine.length = s.w.CmdLine.length ∧ s2.w.fault = s.w.fault ∧
      ∀ j, s2.w.load j =
        if s.curIndex + s.StartIndex ≤ j ∧ j < s.Index then s.w.load (j + 1)
        else s.w.load j := by
  have hM : MAX_CMD_SIZE = 255 := rfl
  have e1 : toU16 ((s.curIndex : Int) + s.StartIndex) = s.curIndex + s.StartIndex := by
    unfold toU16; omega
  have e2 : toU16 ((s.Index : Int) - 1) = s.Index - 1 := by unfold toU16; omega
  have hc : s.Index > s.StartIndex ∧ s.curIndex ≠ s.Index := by omega
  have hne : ¬ s.Index = s.StartIndex + s.curIndex := by omega
  obtain ⟨hl, hf, hld⟩ := EraseDelChar_mid env s.w (s.curIndex + s.StartIndex) s.Index
    hI hmax hcap
  rw [keyDelete, if_pos hc]
  simp only [e1, e2, hne, if_false]
  exact ⟨_, rfl, rfl, rfl, rfl, hl, hf, hld⟩

/-! ## C5 -/

/-- Reading the buffer after an insertion at `pos`, one cell to the right from
`pos` on, gives back the old content below `Index`. -/
theorem insert_undo (old new : Nat → Nat) (pos Index c : Nat)
    (h : ∀ j, new j =
      if j = Index + 1 then 0 else if j = pos then c
      else if pos < j ∧ j ≤ Index then old (j - 1) else old j)
    (j : Nat) (hj : j < Index) :
    (if pos ≤ j then new (j + 1) else new j) = old j := by
  by_cases hp : pos ≤ j
  · rw [if_pos hp, h, if_neg (by omega), if_neg (by omega), if_pos (by omega)]
    rfl
  · rw [if_neg hp, h, if_neg (by omega), if_neg (by omega), if_neg (by omega)]

/-- C5: for every state satisfying the Line Buffer invariant with
length < LINE_LEN, every printable character c and every cursor offset:
inserting c at the cursor and then deleting at the same offset (Backspace, code 8
or 127, from the offset after it; or Left followed by Delete) restores the
original buffer content `[0:length]`, the original length and the original
cursorOffset (segmentStart and the fault flag are unchanged as well). -/
theorem C5_insert_then_delete_restores (env : Env) (pw : Nat) (s : State) (c : Nat)
    (_hW : 0 < env.g_ColumnLen) (hInv : Inv s) (hcap : s.w.CmdLine.length = MAX_CMD_SIZE)
    (hlen : s.Index < LINE_LEN) (hc : isprint c = true) :
    ∃ s1, step env pw s c = .cont s1 ∧ s1.curIndex = s.curIndex + 1 ∧
      s1.Index = s.Index + 1 ∧
      (∀ bk, bk = REX_KEY_BACKSPACE ∨ bk = SSH_BACKSPACE →
        ∃ s2, step env pw s1 bk = .cont s2 ∧ s2.content = s.content ∧
          s2.Index = s.Index ∧ s2.curIndex = s.curIndex ∧
          s2.StartIndex = s.StartIndex ∧ s2.w.fault = s.w.fault) ∧
      (∃ s3 s4, step env pw s1 REX_KEY_LEFT = .cont s3 ∧
        step env pw s3 REX_KEY_DEL = .cont s4 ∧ s4.content = s.content ∧
          s4.Index = s.Index ∧ s4.curIndex = s.curIndex ∧
          s4.StartIndex = s.StartIndex ∧ s4.w.fault = s.w.fault) := by
  have hL : LINE_LEN = 250 := rfl
  have hM : MAX_CMD_SIZE = 255 := rfl
  have hb := (isprint_iff c).1 hc
  obtain ⟨_, hI, _⟩ := hInv
  obtain ⟨s1, h1, hI1, hC1, hS1, hl1, hf1, hld1⟩ :=
    keyChar_spec env pw s c hI (by omega) (by omega) (by omega) (by omega)
  refine ⟨s1, by rw [step_printable env pw s c hc]; exact h1, hC1, hI1, ?_, ?_⟩
  · intro bk hbk
    obtain ⟨s2, h2, hI2, hC2, hS2, hl2, hf2, hld2, _⟩ :=
      keyBackspace_spec env s1 (by omega) (by omega) (by omega) (by omega) (by omega)
    refine ⟨s2, ?_, ?_, by omega, by omega, by rw [hS2, hS1], by rw [hf2, hf1]⟩
    · rcases hbk with rfl | rfl
      · rw [step_backspace]; exact h2
      · rw [step_ssh_backspace]; exact h2
    · simp only [State.content]
      rw [show s2.Index = s.Index by omega]
      apply take_eq_of_load _ (by rw [hl2, hl1])
      intro j hj
      have e := hld2 j (by omega)
      simp only [World.load] at e hld1 ⊢
      rw [e, show s1.curIndex - 1 + s1.StartIndex = s.curIndex + s.StartIndex by omega]
      exact insert_undo (fun j => s.w.CmdLine.getD j 0) (fun j => s1.w.CmdLine.getD j 0)
        (s.curIndex + s.StartIndex) s.Index c hld1 j hj
  · have h3 := keyLeft_spec env s1 (by omega) (by omega) (by omega)
    obtain ⟨s4, h4, hI4, hC4, hS4, hl4, hf4, hld4⟩ :=
      keyDelete_spec env { s1 with
          w := s1.w.emit (stepBack env (s1.curIndex + PROMPT_STR_LEN)),
          curIndex := s1.curIndex - 1 }
        (by simp only; omega) (by simp only; omega) (by simp only [emit_CmdLine]; omega)
    simp only [emit_CmdLine, emit_fault, emit_load] at hI4 hC4 hS4 hl4 hf4 hld4
    refine ⟨_, s4, by rw [step_left]; exact h3, by rw [step_del]; exact h4, ?_, by omega,
      by omega, by rw [hS4, hS1], by rw [hf4, hf1]⟩
    simp only [State.content]
    rw [show s4.Index = s.Index by omega]
    apply take_eq_of_load _ (by rw [hl4, hl1])
    intro j hj
    have e := hld4 j
    simp only [World.load] at e hld1 ⊢
    rw [e, show s1.curIndex - 1 + s1.StartIndex = s.curIndex + s.StartIndex by omega]
    have := insert_undo (fun j => s.w.CmdLine.getD j 0) (fun j => s1.w.CmdLine.getD j 0)
      (s.curIndex + s.StartIndex) s.Index c hld1 j hj
    simp only at this
    rw [← this]
    by_cases hp : s.curIndex + s.StartIndex ≤ j
    · rw [if_pos ⟨hp, by omega⟩, if_pos hp]
    · rw [if_neg hp, if_neg (fun h => hp h.1)]

set_option maxRecDepth 100000 in
/-- C5 witness: inserting `x` between the two characters of the line `ab`. -/
theorem C5_insert_then_delete_restores_witness :
    (Inv midLineState ∧ midLineState.Index < LINE_LEN ∧ isprint 120 = true) ∧
    ∃ s1, step mainEnv 0 midLineState 120 = .cont s1 ∧ s1.curIndex = 2 ∧ s1.Index = 3 ∧
      (∃ s2, step mainEnv 0 s1 REX_KEY_BACKSPACE = .cont s2 ∧
        s2.content = [97, 98] ∧ s2.curIndex = 1) ∧
      (∃ s3 s4, step mainEnv 0 s1 REX_KEY_LEFT = .cont s3 ∧
        step mainEnv 0 s3 REX_KEY_DEL = .cont s4 ∧ s4.content = [97, 98] ∧
        s4.curIndex = 1) := by
  obtain ⟨s1, h1, hC, hI, hbk, s3, s4, h3, h4, hc4, _, hC4, _⟩ :=
    C5_insert_then_delete_restores mainEnv 0 midLineState 120 (by decide) (by decide)
      (by decide) (by decide) (by decide)
  obtain ⟨s2, h2, hc2, _, hC2, _⟩ := hbk REX_KEY_BACKSPACE (Or.inl rfl)
  exact ⟨⟨by decide, by decide, by decide⟩, s1, h1, hC, hI, ⟨s2, h2, hc2, hC2⟩,
    ⟨s3, s4, h3, h4, hc4, hC4⟩⟩

/-! ## C6 -/

theorem keyChar_length (env : Env) (pw : Nat) (s : State) (c : Nat)
    (hne : s.Index ≠ LINE_LEN) :
    ∃ s1, keyChar env pw s c = .cont s1 ∧ s1.Index = toU16 ((s.Index : Int) + 1) ∧
      s1.StartIndex = s.StartIndex := by
  simp only [keyChar, hne, ne_eq, not_false_eq_true, if_true]
  exact ⟨_, rfl, rfl, rfl⟩

/-- The capacity boundary where the cursor is inside the line: in every state with
length = LINE_LEN (250) a printable character produces exactly one audible alert
(bell) and leaves buffer content, length, cursorOffset and segmentStart unchanged;
in every state with length <= LINE_LEN-1 a printable character increases length by
exactly one, and when cursorOffset + segmentStart <= length (in a buffer of
MAX_CMD_SIZE cells) it is inserted: stored at index cursorOffset + segmentStart,
the cursor moving one to the right. -/
theorem capacity_boundary_in_line (env : Env) (pw : Nat) (s : State) (c : Nat)
    (_hW : 0 < env.g_ColumnLen) (hc : isprint c = true) :
    (s.Index = LINE_LEN →
      step env pw s c = .cont { s with w := s.w.emit [REX_KEY_BELL] }) ∧
    (s.Index ≤ LINE_LEN - 1 →
      ∃ s1, step env pw s c = .cont s1 ∧ s1.Index = s.Index + 1 ∧
        s1.StartIndex = s.StartIndex ∧
        (s.curIndex + s.StartIndex ≤ s.Index → s.w.CmdLine.length = MAX_CMD_SIZE →
          s1.w.load (s.curIndex + s.StartIndex) = c ∧ s1.curIndex = s.curIndex + 1 ∧
          s1.w.CmdLine.length = MAX_CMD_SIZE ∧ s1.w.fault = s.w.fault)) := by
  have hL : LINE_LEN = 250 := rfl
  have hM : MAX_CMD_SIZE = 255 := rfl
  have hb := (isprint_iff c).1 hc
  rw [step_printable env pw s c hc]
  constructor
  · intro h; exact keyChar_full env pw s c h
  · intro h
    by_cases hv : s.curIndex + s.StartIndex ≤ s.Index ∧ s.w.CmdLine.length = MAX_CMD_SIZE
    · obtain ⟨s1, h1, hI1, hC1, hS1, hl1, hf1, hld1⟩ :=
        keyChar_spec env pw s c hv.1 (by omega) (by omega) (by omega) (by omega)
      refine ⟨s1, h1, hI1, hS1, fun _ _ => ⟨?_, hC1, by rw [hl1]; exact hv.2, hf1⟩⟩
      rw [hld1, if_neg (by omega), if_pos rfl]
    · obtain ⟨s1, h1, hI1, hS1⟩ := keyChar_length env pw s c (by omega)
      refine ⟨s1, h1, ?_, hS1, fun h1 h2 => absurd ⟨h1, h2⟩ hv⟩
      rw [hI1]; unfold toU16; omega

set_option maxRecDepth 100000 in
/-- The letter `x` typed in the middle of the line `ab` is inserted. -/
theorem capacity_boundary_in_line_example :
    ∃ s1, step mainEnv 0 midLineState 120 = .cont s1 ∧ s1.Index = 3 ∧
      s1.w.load 1 = 120 := by
  obtain ⟨s1, h1, hI, _, h⟩ :=
    (capacity_boundary_in_line mainEnv 0 midLineState 120 (by decide) (by decide)).2
      (by decide)
  exact ⟨s1, h1, hI, (h (by decide) (by decide)).1⟩

set_option maxRecDepth 100000 in
/-- C6 (code defect): after a, backslash, Enter the length is 1, cursorOffset 0 and
segmentStart 1; Tab sets cursorOffset to 1, past the end of the line, where End
would leave it at 0. The printable character c typed next (length 1 <= LINE_LEN-1)
raises the length to 2 but is not inserted: it is stored at index 2 and the
terminator written at content[length] replaces it, so the buffer still reads
a, backslash, 0. Typed after End instead of Tab the same character is inserted. -/
theorem C6_char_lost_after_tab :
    (GetCmdLine mainEnv mainBuf 0 0 [97, 92, 10]).state.curIndex = 0 ∧
    (GetCmdLine mainEnv mainBuf 0 0 [97, 92, 10]).state.StartIndex = 1 ∧
    (GetCmdLine mainEnv mainBuf 0 0 [97, 92, 10, 9]).state.curIndex = 1 ∧
    (GetCmdLine mainEnv mainBuf 0 0 [97, 92, 10, REX_KEY_END]).state.curIndex = 0 ∧
    (GetCmdLine mainEnv mainBuf 0 0 [97, 92, 10, REX_KEY_END, 99]).state.Index = 2 ∧
    (GetCmdLine mainEnv mainBuf 0 0 [97, 92, 10, REX_KEY_END, 99]).state.w.CmdLine.take 3
      = [97, 99, 0] ∧
    (GetCmdLine mainEnv mainBuf 0 0 [97, 92, 10, 9]).state.Index = 1 ∧
    isprint 99 = true ∧
    (GetCmdLine mainEnv mainBuf 0 0 [97, 92, 10, 9, 99]).state.Index = 2 ∧
    (GetCmdLine mainEnv mainBuf 0 0 [97, 92, 10, 9, 99]).state.w.CmdLine.take 3 = [97, 92, 0] ∧
    99 ∉ (GetCmdLine mainEnv mainBuf 0 0 [97, 92, 10, 9, 99]).state.w.CmdLine := by
  decide

/-! ## C7 -/

theorem keyHome_not_ret (env : Env) (s s1 : State) : keyHome env s ≠ .ret s1 := by
  simp [keyHome]

theorem keyEnd_not_ret (env : Env) (s s1 : State) : keyEnd env s ≠ .ret s1 := by
  simp [keyEnd]

theorem keyEscape_not_ret (env : Env) (s s1 : State) : keyEscape env s ≠ .ret s1 := by
  unfold keyEscape; split <;> simp

theorem keyLeft_not_ret (env : Env) (s s1 : State) : keyLeft env s ≠ .ret s1 := by
  unfold keyLeft; split <;> simp

theorem keyRight_not_ret (env : Env) (s s1 : State) : keyRight env s ≠ .ret s1 := by
  unfold keyRight; split <;> simp

theorem keyDelete_not_ret (env : Env) (s s1 : State) : keyDelete env s ≠ .ret s1 := by
  unfold keyDelete; split <;> simp

theorem keyTab_not_ret (s s1 : State) : keyTab s ≠ .ret s1 := by
  simp [keyTab]

theorem keyChar_not_ret (env : Env) (pw : Nat) (s : State) (c : Nat) (s1 : State) :
    keyChar env pw s c ≠ .ret s1 := by
  unfold keyChar; split <;> simp

/-- Backspace executes `return 0` exactly at the end of a line longer than
`MAX_CMD_SIZE`. -/
theorem keyBackspace_ret_iff (env : Env) (s : State) :
    (∃ s1, keyBackspace env s = .ret s1) ↔
      (s.Index > s.StartIndex ∧ s.curIndex ≠ 0 ∧ s.curIndex + s.StartIndex = s.Index ∧
        s.Index > MAX_CMD_SIZE) := by
  unfold keyBackspace
  by_cases h1 : s.Index > s.StartIndex ∧ s.curIndex ≠ 0
  · rw [if_pos h1]
    by_cases h2 : s.curIndex + s.StartIndex ≠ s.Index
    · rw [if_pos h2]
      constructor
      · rintro ⟨s1, h⟩; simp at h
      · rintro ⟨_, _, h, _⟩; exact absurd h h2
    · rw [if_neg h2]
      by_cases h3 : s.Index > MAX_CMD_SIZE
      · simp only [if_pos h3]
        exact ⟨fun _ => ⟨h1.1, h1.2, by omega, h3⟩, fun _ => ⟨_, rfl⟩⟩
      · simp only [if_neg h3]
        constructor
        · rintro ⟨s1, h⟩; simp at h
        · rintro ⟨_, _, _, h⟩; exact absurd h h3
  · rw [if_neg h1]
    constructor
    · rintro ⟨s1, h⟩; simp at h
    · rintro ⟨a, b, _, _⟩; exact absurd ⟨a, b⟩ h1

theorem enterFinish_brk (env : Env) (s : State) (w : World)
    (h : s.Index < MAX_CMD_SIZE - 1) :
    ∃ s1, enterFinish env s w = .brk s1 ∧ s1.Index = s.Index + 1 ∧
      s1.curIndex = s.curIndex ∧ s1.StartIndex = s.StartIndex ∧
      s1.w.CmdLine = (w.store s.Index 0).CmdLine := by
  have hM : MAX_CMD_SIZE = 255 := rfl
  have e1 : toU16 ((s.Index : Int) + 1) = s.Index + 1 := by unfold toU16; omega
  have hnot : ¬ (MAX_CMD_SIZE - 1 ≤ s.Index) := by omega
  simp only [enterFinish, ge_iff_le, hnot, if_false, e1]
  refine ⟨_, rfl, rfl, rfl, rfl, ?_⟩
  simp only
  split <;> rfl

/-- Enter executes `return 0` exactly when it is not a continuation and the
length has reached `MAX_CMD_SIZE - 1`. -/
theorem keyEnter_ret_iff (env : Env) (s : State) :
    (∃ s1, keyEnter env s = .ret s1) ↔
      (¬ (s.Index > s.StartIndex ∧ s.w.load (s.Index - 1) = 92) ∧
        MAX_CMD_SIZE - 1 ≤ s.Index) := by
  by_cases hnc : s.Index > s.StartIndex ∧ s.w.load (s.Index - 1) = 92
  · constructor
    · rintro ⟨s1, h⟩
      unfold keyEnter at h
      rw [if_pos hnc.1] at h
      simp only [touch_load, hnc.2, if_true] at h
      split at h <;> simp at h
    · rintro ⟨h, _⟩; exact absurd hnc h
  · rw [keyEnter_plain env s hnc]
    by_cases hI : MAX_CMD_SIZE - 1 ≤ s.Index
    · rw [enterFinish_reject env s _ hI]
      exact ⟨fun _ => ⟨hnc, hI⟩, fun _ => ⟨_, rfl⟩⟩
    · obtain ⟨s1, h1, _⟩ := enterFinish_brk env s
        (if s.Index > s.StartIndex then s.w.touch (s.Index - 1) else s.w) (by omega)
      rw [h1]
      constructor
      · rintro ⟨s2, h⟩; simp at h
      · rintro ⟨_, h⟩; exact absurd h hI

/-- Every `return 0` inside the loop: Enter at the length limit, or Backspace at
the end of a line longer than `MAX_CMD_SIZE`. -/
theorem step_ret_iff (env : Env) (pw : Nat) (s : State) (ch : Nat) :
    (∃ s1, step env pw s ch = .ret s1) ↔
      ((ch = REX_KEY_NEWLINE ∧ ¬ (s.Index > s.StartIndex ∧ s.w.load (s.Index - 1) = 92) ∧
          MAX_CMD_SIZE - 1 ≤ s.Index) ∨
       ((ch = REX_KEY_BACKSPACE ∨ ch = SSH_BACKSPACE) ∧ s.Index > s.StartIndex ∧
          s.curIndex ≠ 0 ∧ s.curIndex + s.StartIndex = s.Index ∧ s.Index > MAX_CMD_SIZE)) := by
  have never : ∀ o : Outcome, (∀ s1, o ≠ .ret s1) → ch ≠ REX_KEY_NEWLINE →
      ¬ (ch = REX_KEY_BACKSPACE ∨ ch = SSH_BACKSPACE) →
      ((∃ s1, o = .ret s1) ↔
        ((ch = REX_KEY_NEWLINE ∧ ¬ (s.Index > s.StartIndex ∧ s.w.load (s.Index - 1) = 92) ∧
            MAX_CMD_SIZE - 1 ≤ s.Index) ∨
         ((ch = REX_KEY_BACKSPACE ∨ ch = SSH_BACKSPACE) ∧ s.Index > s.StartIndex ∧
            s.curIndex ≠ 0 ∧ s.curIndex + s.StartIndex = s.Index ∧
            s.Index > MAX_CMD_SIZE))) := by
    intro o ho h1 h2
    constructor
    · rintro ⟨s1, h⟩; exact absurd h (ho s1)
    · rintro (⟨h, _⟩ | ⟨h, _⟩)
      · exact absurd h h1
      · exact absurd h h2
  by_cases h1 : ch = REX_KEY_HOME
  · subst h1; rw [step_home]
    exact never _ (keyHome_not_ret env s) (by decide) (by decide)
  by_cases h2 : ch = REX_KEY_END
  · subst h2; rw [step_end]
    exact never _ (keyEnd_not_ret env s) (by decide) (by decide)
  by_cases h3 : ch = REX_KEY_ESCAPE
  · subst h3; rw [step_escape]
    exact never _ (keyEscape_not_ret env s) (by decide) (by decide)
  by_cases h4 : ch = REX_KEY_LEFT
  · subst h4; rw [step_left]
    exact never _ (keyLeft_not_ret env s) (by decide) (by decide)
  by_cases h5 : ch = REX_KEY_RIGHT
  · subst h5; rw [step_right]
    exact never _ (keyRight_not_ret env s) (by decide) (by decide)
  by_cases h6 : ch = REX_KEY_BACKSPACE ∨ ch = SSH_BACKSPACE
  · have hn : ¬ ch = REX_KEY_NEWLINE := by
      rcases h6 with h | h <;> rw [h] <;> decide
    have hs : step env pw s ch = keyBackspace env s := by
      rcases h6 with h | h <;> rw [h]
      · exact step_backspace env pw s
      · exact step_ssh_backspace env pw s
    rw [hs, keyBackspace_ret_iff]
    simp [hn, h6]
  by_cases h7 : ch = REX_KEY_DEL
  · subst h7; rw [step_del]
    exact never _ (keyDelete_not_ret env s) (by decide) (by decide)
  by_cases h8 : ch = REX_KEY_TAB
  · subst h8; rw [step_tab]
    exact never _ (keyTab_not_ret s) (by decide) (by decide)
  by_cases h9 : ch = REX_KEY_NEWLINE
  · subst h9; rw [step_enter, keyEnter_ret_iff]
    simp [h6]
  have hs : step env pw s ch =
      if ch &&& 0xFF00 ≠ 0 then .cont { s with w := s.w.emit (ConsoleBell env) }
      else if !isprint ch then .cont { s with w := s.w.emit (ConsoleBell env) }
      else keyChar env pw s ch := by
    simp only [step, h1, h2, h3, h4, h5, h6, h7, h8, h9, if_false]
  rw [hs]
  split
  · exact never _ (by simp) h9 h6
  split
  · exact never _ (by simp) h9 h6
  · exact never _ (keyChar_not_ret env pw s ch) h9 h6

/-- C7 (amended): on Enter in the non-continuation case, `GetCmdLine` rejects iff
length >= MAX_CMD_SIZE-1 (254): the rejection returns immediately with the buffer
unchanged and nothing written to the terminal; otherwise it stores the sentinel 0
at content[length] and ends the read. A rejection occurs in exactly one other
situation: Backspace (code 8 or 127) with the cursor at the end of a non-empty
segment whose length exceeds MAX_CMD_SIZE (255), which returns after the erase
sequence has been written. -/
theorem C7_rejection_cases (env : Env) (pw : Nat) (s : State) (_hW : 0 < env.g_ColumnLen) :
    (¬ (s.Index > s.StartIndex ∧ s.w.load (s.Index - 1) = 92) →
      (MAX_CMD_SIZE - 1 ≤ s.Index →
        ∃ s1, step env pw s REX_KEY_NEWLINE = .ret s1 ∧ s1.w.CmdLine = s.w.CmdLine ∧
          s1.w.out = s.w.out ∧ s1.Index = s.Index ∧ s1.curIndex = s.curIndex ∧
          s1.StartIndex = s.StartIndex) ∧
      (s.Index < MAX_CMD_SIZE - 1 →
        ∃ s1, step env pw s REX_KEY_NEWLINE = .brk s1 ∧
          (s.Index < s.w.CmdLine.length → s1.w.load s.Index = 0))) ∧
    (∀ ch, (∃ s1, step env pw s ch = .ret s1) ↔
      ((ch = REX_KEY_NEWLINE ∧ ¬ (s.Index > s.StartIndex ∧ s.w.load (s.Index - 1) = 92) ∧
          MAX_CMD_SIZE - 1 ≤ s.Index) ∨
       ((ch = REX_KEY_BACKSPACE ∨ ch = SSH_BACKSPACE) ∧ s.Index > s.StartIndex ∧
          s.curIndex ≠ 0 ∧ s.curIndex + s.StartIndex = s.Index ∧
          s.Index > MAX_CMD_SIZE))) := by
  refine ⟨fun hnc => ⟨fun hI => ?_, fun hI => ?_⟩, fun ch => step_ret_iff env pw s ch⟩
  · rw [step_enter, keyEnter_plain env s hnc, enterFinish_reject env s _ hI]
    refine ⟨_, rfl, ?_, ?_, rfl, rfl, rfl⟩
    · simp only; split
      · exact touch_CmdLine _ _
      · rfl
    · simp only; split
      · exact touch_out _ _
      · rfl
  · obtain ⟨s1, h1, _, _, _, hb⟩ := enterFinish_brk env s
      (if s.Index > s.StartIndex then s.w.touch (s.Index - 1) else s.w) hI
    refine ⟨s1, by rw [step_enter, keyEnter_plain env s hnc]; exact h1, fun hcap => ?_⟩
    have hw : (if s.Index > s.StartIndex then s.w.touch (s.Index - 1) else s.w).CmdLine
        = s.w.CmdLine := by
      split
      · exact touch_CmdLine _ _
      · rfl
    have e : s1.w.load s.Index =
        ((if s.Index > s.StartIndex then s.w.touch (s.Index - 1) else s.w).store
          s.Index 0).load s.Index := load_congr hb _
    rw [e, load_store _ _ (by rw [hw]; exact hcap), if_pos rfl]

set_option maxRecDepth 100000 in
/-- C7 witness: Enter on the line `ab` ends the read with the sentinel stored. -/
theorem C7_rejection_cases_witness :
    ∃ s1, step mainEnv 0 midLineState REX_KEY_NEWLINE = .brk s1 ∧ s1.w.load 2 = 0 := by
  obtain ⟨s1, h1, h⟩ :=
    ((C7_rejection_cases mainEnv 0 midLineState (by decide)).1 (by decide)).2 (by decide)
  exact ⟨s1, h1, h (by decide)⟩

set_option maxRecDepth 100000 in
/-- C7 counterexample: `GetCmdLine` called on a buffer of 300 cells with a prefilled
length of 256. The first key is Backspace, not Enter: the erase sequence is written
and `GetCmdLine` returns. -/
theorem C7_counterexample_backspace_rejects :
    (GetCmdLine mainEnv (List.replicate 300 0) 256 0 [REX_KEY_BACKSPACE]).isReturned = true ∧
    (GetCmdLine mainEnv (List.replicate 300 0) 256 0 [REX_KEY_BACKSPACE]).state.w.out
      = [8, 32, 8] ∧
    (∃ s1, step mainEnv 0 (initState (List.replicate 300 0) 256) REX_KEY_BACKSPACE = .ret s1) ∧
    REX_KEY_BACKSPACE ≠ REX_KEY_NEWLINE := by
  refine ⟨by decide, by decide, ⟨_, rfl⟩, by decide⟩

/-! ## C8 -/

/-- Left and Right where the cursor is inside the line: for every column width
W >= 1 and the prompt length PROMPT_STR_LEN, and every state with
length > segmentStart, cursorOffset k != 0 and k + segmentStart <= length: Left uses the wrap action (cursor up one row, then
forward W-1 columns) iff (k + PROMPT_STR_LEN) mod W = 0 and a plain one-column
move back otherwise; Right from offset k-1 uses its wrap action (cursor down one
row, then back W-1 columns) under exactly the same condition and a one-column
move forward otherwise; and Left followed by Right returns cursorOffset to k with
buffer content, length and segmentStart unchanged. -/
theorem left_right_wrap_in_line (env : Env) (pw : Nat) (s : State)
    (_hW : 0 < env.g_ColumnLen) (hgt : s.Index > s.StartIndex) (hk : s.curIndex ≠ 0)
    (hI : s.curIndex + s.StartIndex ≤ s.Index) (h16 : s.Index < 65536) :
    ∃ s1 s2, step env pw s REX_KEY_LEFT = .cont s1 ∧
      step env pw s1 REX_KEY_RIGHT = .cont s2 ∧
      s1.curIndex = s.curIndex - 1 ∧
      s1.w.out = s.w.out ++
        (if (s.curIndex + PROMPT_STR_LEN) % env.g_ColumnLen = 0 then
          MoveCursorOneLineUp env ++ ForwardCursor env ((env.g_ColumnLen : Int) - 1)
        else [REX_KEY_BACKSPACE]) ∧
      s2.w.out = s1.w.out ++
        (if (s.curIndex + PROMPT_STR_LEN) % env.g_ColumnLen = 0 then
          MoveCursorOneLineDown env ++ BackwardCursor env ((env.g_ColumnLen : Int) - 1)
        else ForwardCursor env 1) ∧
      s2.curIndex = s.curIndex ∧ s2.w.CmdLine = s.w.CmdLine ∧ s2.Index = s.Index ∧
      s2.StartIndex = s.StartIndex := by
  have h1 := keyLeft_spec env s hgt hk (by omega)
  have h2 := keyRight_spec env { s with
      w := s.w.emit (stepBack env (s.curIndex + PROMPT_STR_LEN)),
      curIndex := s.curIndex - 1 } (by simp only; omega) (by simp only; omega)
  have e : s.curIndex - 1 + PROMPT_STR_LEN + 1 = s.curIndex + PROMPT_STR_LEN := by omega
  have hb : ConsolePutChar env REX_KEY_BACKSPACE = [REX_KEY_BACKSPACE] :=
    ConsolePutChar_ascii env (by decide)
  simp only at h2
  rw [← step_left env pw] at h1
  rw [← step_right env pw] at h2
  refine ⟨{ s with
      w := s.w.emit (stepBack env (s.curIndex + PROMPT_STR_LEN)),
      curIndex := s.curIndex - 1 },
    { s with
      w := (s.w.emit (stepBack env (s.curIndex + PROMPT_STR_LEN))).emit
        (if (s.curIndex - 1 + PROMPT_STR_LEN + 1) % env.g_ColumnLen = 0 then
          MoveCursorOneLineDown env ++ BackwardCursor env ((env.g_ColumnLen : Int) - 1)
        else ForwardCursor env 1),
      curIndex := s.curIndex - 1 + 1 }, h1, h2, rfl, ?_, ?_, ?_, rfl, rfl, rfl⟩
  · simp only [emit_out, stepBack, hb]
  · simp only [emit_out, e]
  · simp only; omega

set_option maxRecDepth 100000 in
/-- Left then Right on the line `ab` with the cursor after `a`. -/
theorem left_right_wrap_in_line_example :
    ∃ s1 s2, step mainEnv 0 midLineState REX_KEY_LEFT = .cont s1 ∧
      step mainEnv 0 s1 REX_KEY_RIGHT = .cont s2 ∧ s1.curIndex = 0 ∧
      s1.w.out = [8] ∧ s2.curIndex = 1 := by
  obtain ⟨s1, s2, h1, h2, hc1, ho1, _, hc2, _⟩ :=
    left_right_wrap_in_line mainEnv 0 midLineState (by decide) (by decide) (by decide)
      (by decide) (by decide)
  exact ⟨s1, s2, h1, h2, hc1, by rw [ho1]; decide, hc2⟩

set_option maxRecDepth 100000 in
/-- C8 (code defect): after a, b, backslash, Enter, c the state has length 3,
segmentStart 2 and cursorOffset 1. Tab sets cursorOffset to 3, past the end of the
line, where End leaves it at 1. The state has length > segmentStart and
cursorOffset 3 != 0; Left moves the cursor to offset 2 and Right is then ignored,
so Left followed by Right does not return the cursor to offset 3. -/
theorem C8_right_ignored_after_tab :
    (GetCmdLine mainEnv mainBuf 0 0 [97, 98, 92, 10, 99]).state.curIndex = 1 ∧
    (GetCmdLine mainEnv mainBuf 0 0 [97, 98, 92, 10, 99, REX_KEY_END]).state.curIndex = 1 ∧
    (GetCmdLine mainEnv mainBuf 0 0 [97, 98, 92, 10, 99, 9]).state.Index = 3 ∧
    (GetCmdLine mainEnv mainBuf 0 0 [97, 98, 92, 10, 99, 9]).state.StartIndex = 2 ∧
    (GetCmdLine mainEnv mainBuf 0 0 [97, 98, 92, 10, 99, 9]).state.curIndex = 3 ∧
    (GetCmdLine mainEnv mainBuf 0 0 [97, 98, 92, 10, 99, 9, REX_KEY_LEFT]).state.curIndex = 2 ∧
    (GetCmdLine mainEnv mainBuf 0 0
      [97, 98, 92, 10, 99, 9, REX_KEY_LEFT, REX_KEY_RIGHT]).state.curIndex = 2 := by
  decide

/-! ## C9 -/

theorem putRange_CmdLine (env : Env) (n : Nat) : ∀ (c : Nat) (w : World),
    (putRange env n c w).CmdLine = w.CmdLine := by
  induction n with
  | zero => intro c w; rfl
  | succ n ih =>
    intro c w
    simp only [putRange]
    rw [ih]; simp

theorem putLoop_CmdLine (env : Env) (w : World) (c i : Nat) :
    (putLoop env w c i).CmdLine = w.CmdLine := by
  unfold putLoop
  split
  · rfl
  · exact putRange_CmdLine env _ c w

/-- On one row the whole line is erased by backspace, space, backspace per character. -/
theorem EraseCmdLine_one_row (env : Env) (n : Nat) (h : n < env.g_ColumnLen) :
    EraseCmdLine env n = (List.replicate n [8, 32, 8]).flatten := by
  induction n with
  | zero => rfl
  | succ n ih =>
    have hm : ¬ ((n + PROMPT_STR_LEN + 1) % env.g_ColumnLen = 0) := by
      have : PROMPT_STR_LEN = 0 := rfl
      rw [this, Nat.mod_eq_of_lt (by omega)]
      omega
    have he : EraseChar env = [8, 32, 8] := by
      simp only [EraseChar, REX_KEY_BACKSPACE, REX_KEY_SPACE]
      rw [ConsolePutChar_ascii env (by omega), ConsolePutChar_ascii env (by omega)]
      rfl
    simp only [EraseCmdLine, hm, if_false, he, ih (by omega), List.replicate_succ,
      List.flatten_cons]

/-- C9: for every state with segmentStart = 0, Escape resets length to 0 and
cursorOffset to 0 (the buffer cells are left as they are, and no access leaves the
buffer when length is inside it); for buffer `hello` with the cursor at the end
and a column width greater than 5 the output is exactly five erase steps
(backspace, space, backspace), whose net cursor displacement is five columns
back. -/
theorem C9_escape_clear (env : Env) (pw : Nat) (s : State) (_hW : 0 < env.g_ColumnLen)
    (hS : s.StartIndex = 0) :
    ∃ s1, step env pw s REX_KEY_ESCAPE = .cont s1 ∧ s1.Index = 0 ∧ s1.curIndex = 0 ∧
      s1.StartIndex = 0 ∧ s1.w.CmdLine = s.w.CmdLine ∧
      (s.Index < s.w.CmdLine.length → s.Index < 65535 → s1.w.fault = s.w.fault) ∧
      (5 < env.g_ColumnLen → s.Index = 5 → s.curIndex = 5 →
        s.content = [104, 101, 108, 108, 111] →
        s1.w.out = s.w.out ++ [8, 32, 8, 8, 32, 8, 8, 32, 8, 8, 32, 8, 8, 32, 8] ∧
        colShift [8, 32, 8, 8, 32, 8, 8, 32, 8, 8, 32, 8, 8, 32, 8] = -5) := by
  have hne : ¬ s.StartIndex ≠ 0 := by omega
  rw [step_escape]
  simp only [keyEscape, hne, if_false]
  refine ⟨_, rfl, rfl, rfl, hS, ?_, ?_, ?_⟩
  · simp only [emit_CmdLine]
    split
    · exact putLoop_CmdLine env _ _ _
    · rfl
  · intro hcap h16
    simp only [emit_fault]
    split
    · exact (putLoop_frame env s.w _ _ hcap h16).2
    · rfl
  · intro h5 hI hC _
    have hc : ¬ s.curIndex ≠ s.Index := by omega
    rw [if_neg hc, emit_out, hI, EraseCmdLine_one_row env 5 h5]
    exact ⟨rfl, by decide⟩

set_option maxRecDepth 100000 in
/-- C9 witness: Escape after `hello` was typed; the bytes written since the prompt
bring the cursor back to the prompt column. -/
theorem C9_escape_clear_witness :
    ∃ s1, step mainEnv 0 helloState REX_KEY_ESCAPE = .cont s1 ∧ s1.Index = 0 ∧
      s1.curIndex = 0 ∧ colShift s1.w.out = 0 := by
  obtain ⟨s1, h1, hI, hC, _, _, _, ho⟩ :=
    C9_escape_clear mainEnv 0 helloState (by decide) (by decide)
  refine ⟨s1, h1, hI, hC, ?_⟩
  rw [(ho (by decide) (by decide) (by decide) (by decide)).1]
  decide

/-! ## C10 -/

/-- C10: in non-raw mode, for an escape marker followed by `[` or `O` and a
terminal-code unit, `Termios_ConsoleGetChar` returns A/B/C/D -> Up/Down/Right/Left,
H -> Home, F -> End, P/Q/R/S -> F1..F4, 2 -> Insert, each consuming exactly three
units; 5 -> PageUp, 6 -> PageDown, 3 -> Delete, each consuming one extra trailing
unit (four units); and for 1 and 4 it consumes one extra trailing unit and
returns the no-op key 0. Nothing is written and `peek` is left empty. -/
theorem C10_escape_sequences (b t : Nat) (rest d : List Nat)
    (hb : b = REX_KEY_ESC_SEQ ∨ b = 79) :
    (Termios_ConsoleGetChar 0 { peek := -1, stdin := REX_KEY_ESCAPE :: b :: 65 :: rest, diag := d }
      = (REX_KEY_UP, { peek := -1, stdin := rest, diag := d })) ∧
    (Termios_ConsoleGetChar 0 { peek := -1, stdin := REX_KEY_ESCAPE :: b :: 66 :: rest, diag := d }
      = (REX_KEY_DOWN, { peek := -1, stdin := rest, diag := d })) ∧
    (Termios_ConsoleGetChar 0 { peek := -1, stdin := REX_KEY_ESCAPE :: b :: 67 :: rest, diag := d }
      = (REX_KEY_RIGHT, { peek := -1, stdin := rest, diag := d })) ∧
    (Termios_ConsoleGetChar 0 { peek := -1, stdin := REX_KEY_ESCAPE :: b :: 68 :: rest, diag := d }
      = (REX_KEY_LEFT, { peek := -1, stdin := rest, diag := d })) ∧
    (Termios_ConsoleGetChar 0 { peek := -1, stdin := REX_KEY_ESCAPE :: b :: 72 :: rest, diag := d }
      = (REX_KEY_HOME, { peek := -1, stdin := rest, diag := d })) ∧
    (Termios_ConsoleGetChar 0 { peek := -1, stdin := REX_KEY_ESCAPE :: b :: 70 :: rest, diag := d }
      = (REX_KEY_END, { peek := -1, stdin := rest, diag := d })) ∧
    (Termios_ConsoleGetChar 0 { peek := -1, stdin := REX_KEY_ESCAPE :: b :: 80 :: rest, diag := d }
      = (REX_KEY_F1, { peek := -1, stdin := rest, diag := d })) ∧
    (Termios_ConsoleGetChar 0 { peek := -1, stdin := REX_KEY_ESCAPE :: b :: 81 :: rest, diag := d }
      = (REX_KEY_F2, { peek := -1, stdin := rest, diag := d })) ∧
    (Termios_ConsoleGetChar 0 { peek := -1, stdin := REX_KEY_ESCAPE :: b :: 82 :: rest, diag := d }
      = (REX_KEY_F3, { peek := -1, stdin := rest, diag := d })) ∧
    (Termios_ConsoleGetChar 0 { peek := -1, stdin := REX_KEY_ESCAPE :: b :: 83 :: rest, diag := d }
      = (REX_KEY_F4, { peek := -1, stdin := rest, diag := d })) ∧
    (Termios_ConsoleGetChar 0 { peek := -1, stdin := REX_KEY_ESCAPE :: b :: 50 :: rest, diag := d }
      = (REX_KEY_INS, { peek := -1, stdin := rest, diag := d })) ∧
    (Termios_ConsoleGetChar 0
        { peek := -1, stdin := REX_KEY_ESCAPE :: b :: 53 :: t :: rest, diag := d }
      = (REX_KEY_PGUP, { peek := -1, stdin := rest, diag := d })) ∧
    (Termios_ConsoleGetChar 0
        { peek := -1, stdin := REX_KEY_ESCAPE :: b :: 54 :: t :: rest, diag := d }
      = (REX_KEY_PGDN, { peek := -1, stdin := rest, diag := d })) ∧
    (Termios_ConsoleGetChar 0
        { peek := -1, stdin := REX_KEY_ESCAPE :: b :: 51 :: t :: rest, diag := d }
      = (REX_KEY_DEL, { peek := -1, stdin := rest, diag := d })) ∧
    (Termios_ConsoleGetChar 0
        { peek := -1, stdin := REX_KEY_ESCAPE :: b :: 49 :: t :: rest, diag := d }
      = (0, { peek := -1, stdin := rest, diag := d })) ∧
    (Termios_ConsoleGetChar 0
        { peek := -1, stdin := REX_KEY_ESCAPE :: b :: 52 :: t :: rest, diag := d }
      = (0, { peek := -1, stdin := rest, diag := d })) := by
  rcases hb with rfl | rfl <;>
    exact ⟨rfl, rfl, rfl, rfl, rfl, rfl, rfl, rfl, rfl, rfl, rfl, rfl, rfl, rfl, rfl, rfl⟩

/-- C10 witness: the bytes ESC `[` 5 `~` followed by the letter a decode to PageUp
and leave the letter unread. -/
theorem C10_escape_sequences_witness :
    Termios_ConsoleGetChar 0 { peek := -1, stdin := [27, 91, 53, 126, 97], diag := [] }
      = (REX_KEY_PGUP, { peek := -1, stdin := [97], diag := [] }) :=
  (C10_escape_sequences 91 126 [97] [] (Or.inl rfl)).2.2.2.2.2.2.2.2.2.2.2.1

/-! ## C3 and C4 -/

set_option maxRecDepth 100000 in
/-- C3 (failing input): from an empty line, after a, backslash, Enter the state
satisfies the Line Buffer invariant (length 1, cursorOffset 0, segmentStart 1);
the Tab key then sets cursorOffset to 1, so that cursorOffset + segmentStart = 2
exceeds length 1 and the invariant is lost, while the End key in the same state
keeps it. A printable character typed into a prefilled line of length 254 also
leaves the invariant, at length 255, and writes outside the buffer. -/
theorem C3_tab_breaks_invariant :
    Inv (GetCmdLine mainEnv mainBuf 0 0 [97, 92, 10]).state ∧
    ¬ Inv (GetCmdLine mainEnv mainBuf 0 0 [97, 92, 10, REX_KEY_TAB]).state ∧
    (GetCmdLine mainEnv mainBuf 0 0 [97, 92, 10, REX_KEY_TAB]).state.Index = 1 ∧
    (GetCmdLine mainEnv mainBuf 0 0 [97, 92, 10, REX_KEY_TAB]).state.curIndex = 1 ∧
    (GetCmdLine mainEnv mainBuf 0 0 [97, 92, 10, REX_KEY_TAB]).state.StartIndex = 1 ∧
    Inv (GetCmdLine mainEnv mainBuf 0 0 [97, 92, 10, REX_KEY_END]).state ∧
    Inv (initState mainBuf 254) ∧
    ¬ Inv (GetCmdLine mainEnv mainBuf 254 0 [97]).state ∧
    (GetCmdLine mainEnv mainBuf 254 0 [97]).state.w.fault = true := by
  decide

set_option maxRecDepth 100000 in
/-- C4 (failing input): in masked mode (isPassword = 1) the character a typed at the
end of the line is echoed as `*`, but after Left the characters b and c typed in
front of it are echoed as themselves, together with the a behind them: the two key
sequences differ only in the printable character typed and the terminal output
differs. -/
theorem C4_masked_midline_echo_leaks :
    (GetCmdLine mainEnv mainBuf 0 1 [97]).state.w.out = [42] ∧
    (GetCmdLine mainEnv mainBuf 0 1 [97, REX_KEY_LEFT, 98]).state.w.out = [42, 8, 98, 97, 8] ∧
    (GetCmdLine mainEnv mainBuf 0 1 [97, REX_KEY_LEFT, 99]).state.w.out = [42, 8, 99, 97, 8] ∧
    (GetCmdLine mainEnv mainBuf 0 1 [97, REX_KEY_LEFT, 98]).state.w.out ≠
      (GetCmdLine mainEnv mainBuf 0 1 [97, REX_KEY_LEFT, 99]).state.w.out := by
  decide

/-! ## The key decoder (C11, C12, C13) -/

/-- C11: for every input stream that begins with the escape marker, `[` (or `O`)
and a code the decoder does not map, one decode call writes exactly one
diagnostic line (`Unknown Esc Seq Code 27` and a newline), returns the no-op key 0
and consumes exactly those three units: it leaves `peek` empty and the rest of
the stream unread, so the next decode call starts on the remaining stream. -/
theorem C11_unknown_escape_resumes (b x : Nat) (rest d : List Nat)
    (hb : b = REX_KEY_ESC_SEQ ∨ b = 79)
    (hx : x ∉ [68, 67, 65, 66, 53, 54, 49, 72, 52, 70, 50, 51, 80, 81, 82, 83]) :
    Termios_ConsoleGetChar 0
        { peek := -1, stdin := REX_KEY_ESCAPE :: b :: x :: rest, diag := d } =
      (0, { peek := -1, stdin := rest,
            diag := d ++ (unknownEscSeqText ++ [50, 55] ++ [REX_KEY_NEWLINE]) }) := by
  simp only [List.mem_cons, List.mem_singleton, not_or, List.not_mem_nil, or_false] at hx
  have hs : sprintf_d ((REX_KEY_ESCAPE : Nat) : Int) = [50, 55] := by decide
  rcases hb with rfl | rfl
  · simp only [Termios_ConsoleGetChar, Unix_getch, Unix_kbhit, Termios_Unix_kbhit, getchar,
      REX_KEY_ESCAPE, REX_KEY_ESC_SEQ, REX_KEY_RETURN, REX_KEY_NEWLINE]
    simp
    repeat rw [if_neg (by omega)]
    simp [REX_KEY_ESCAPE] at hs
    simp [hs]
  · simp only [Termios_ConsoleGetChar, Unix_getch, Unix_kbhit, Termios_Unix_kbhit, getchar,
      REX_KEY_ESCAPE, REX_KEY_ESC_SEQ, REX_KEY_RETURN, REX_KEY_NEWLINE]
    simp
    repeat rw [if_neg (by omega)]
    simp [REX_KEY_ESCAPE] at hs
    simp [hs]

/-- C11 witness: ESC `[` Z followed by the letter a; the call after the
diagnostic returns that letter. -/
theorem C11_unknown_escape_resumes_witness :
    Termios_ConsoleGetChar 0 { peek := -1, stdin := [27, 91, 90, 97], diag := [] } =
      (0, { peek := -1, stdin := [97],
            diag := [] ++ (unknownEscSeqText ++ [50, 55] ++ [REX_KEY_NEWLINE]) }) ∧
    (Termios_ConsoleGetChar 0
      (Termios_ConsoleGetChar 0 { peek := -1, stdin := [27, 91, 90, 97], diag := [] }).2).1
      = 97 :=
  ⟨C11_unknown_escape_resumes 91 90 [97] [] (Or.inl rfl) (by decide), by decide⟩

/-- C13: in non-raw mode, for every input unit u (a byte) that is not the escape
marker, one decode call consumes exactly that one unit and produces exactly one
key: Enter (newline) when u is carriage-return, and u itself otherwise. -/
theorem C13_plain_unit (u : Nat) (rest d : List Nat) (hu : u ≠ REX_KEY_ESCAPE)
    (hbyte : u < 256) :
    Termios_ConsoleGetChar 0 { peek := -1, stdin := u :: rest, diag := d } =
      (if u = REX_KEY_RETURN then REX_KEY_NEWLINE else u,
        { peek := -1, stdin := rest, diag := d }) := by
  have h1 : ¬ ((u : Int) = 27) := by
    have : u ≠ 27 := hu
    omega
  have e : toU16 (u : Int) = u := toU16_of_lt (by omega)
  have h0 : Termios_ConsoleGetChar 0 { peek := -1, stdin := u :: rest, diag := d } =
      (if (u : Int) = 13 then toU16 10 else toU16 (u : Int),
        { peek := -1, stdin := rest, diag := d }) := by
    simp only [Termios_ConsoleGetChar, Unix_getch, Unix_kbhit, Termios_Unix_kbhit, getchar,
      REX_KEY_ESCAPE, REX_KEY_ESC_SEQ, REX_KEY_RETURN, REX_KEY_NEWLINE]
    simp [h1]
    split <;> rfl
  rw [h0, e]
  by_cases h13 : u = 13
  · subst h13; rfl
  · have : ¬ ((u : Int) = 13) := by omega
    have h13b : ¬ u = REX_KEY_RETURN := h13
    rw [if_neg this, if_neg h13b]

/-- C13 witness: carriage-return becomes newline, the letter a passes through. -/
theorem C13_plain_unit_witness :
    Termios_ConsoleGetChar 0 { peek := -1, stdin := [13, 97], diag := [] } =
      (10, { peek := -1, stdin := [97], diag := [] }) ∧
    Termios_ConsoleGetChar 0 { peek := -1, stdin := [97], diag := [] } =
      (97, { peek := -1, stdin := [], diag := [] }) :=
  ⟨C13_plain_unit 13 [97] [] (by decide) (by decide),
   C13_plain_unit 97 [] [] (by decide) (by decide)⟩

/-! ## Insert-at and delete-at as list operations (C14, C15, C17) -/

theorem getElem?_eq_some_getD (l : List Nat) (j : Nat) (h : j < l.length) :
    l[j]? = some (l.getD j 0) := by
  simp [List.getD_eq_getElem?_getD, List.getElem?_eq_getElem h]

/-- A buffer that agrees with the old one below `pos`, holds `c` at `pos` and the
old cells one place to the right after it, has as content the old content with `c`
inserted at `pos`. -/
theorem insert_content (old new : List Nat) (n pos c : Nat) (hpos : pos ≤ n)
    (hn : n < old.length) (hl : new.length = old.length)
    (h : ∀ j, j ≤ n → new.getD j 0 =
      if j = pos then c else if pos < j then old.getD (j - 1) 0 else old.getD j 0) :
    new.take (n + 1) = (old.take n).take pos ++ c :: (old.take n).drop pos := by
  have hlt : (List.take pos (List.take n old)).length = pos := by
    simp only [List.length_take]; omega
  apply List.ext_getElem?
  intro j
  by_cases hj : j < n + 1
  · rw [List.getElem?_take, if_pos hj, getElem?_eq_some_getD new j (by omega), h j (by omega)]
    by_cases h1 : j < pos
    · rw [if_neg (show ¬ j = pos by omega), if_neg (show ¬ pos < j by omega),
        List.getElem?_append_left (by omega), List.getElem?_take, if_pos h1,
        List.getElem?_take, if_pos (show j < n by omega),
        getElem?_eq_some_getD old j (by omega)]
    · rw [List.getElem?_append_right (by omega), hlt]
      by_cases h2 : j = pos
      · subst h2
        simp
      · obtain ⟨k, hk⟩ : ∃ k, j - pos = k + 1 := ⟨j - pos - 1, by omega⟩
        rw [if_neg h2, if_pos (show pos < j by omega), hk, List.getElem?_cons_succ,
          List.getElem?_drop, List.getElem?_take, if_pos (show pos + k < n by omega),
          getElem?_eq_some_getD old (pos + k) (by omega),
          show j - 1 = pos + k by omega]
  · rw [List.getElem?_take, if_neg hj]
    symm
    apply List.getElem?_eq_none
    simp only [List.length_append, List.length_cons, List.length_drop, List.length_take]
    omega

/-- A buffer that agrees with the old one below `pos` and holds the old cells one
place to the left from `pos` on, has as content the old content without the cell
at `pos`. -/
theorem erase_content (old new : List Nat) (n pos : Nat) (hpos : pos < n)
    (hn : n ≤ old.length) (hl : new.length = old.length)
    (h : ∀ j, j < n - 1 → new.getD j 0 =
      if pos ≤ j then old.getD (j + 1) 0 else old.getD j 0) :
    new.take (n - 1) = (old.take n).eraseIdx pos := by
  apply List.ext_getElem?
  intro j
  rw [List.getElem?_eraseIdx]
  by_cases hj : j < n - 1
  · rw [List.getElem?_take, if_pos hj, getElem?_eq_some_getD new j (by omega), h j hj]
    by_cases h1 : pos ≤ j
    · rw [if_pos h1, if_neg (show ¬ j < pos by omega), List.getElem?_take,
        if_pos (show j + 1 < n by omega), getElem?_eq_some_getD old (j + 1) (by omega)]
    · rw [if_neg h1, if_pos (show j < pos by omega), List.getElem?_take,
        if_pos (show j < n by omega), getElem?_eq_some_getD old j (by omega)]
  · rw [List.getElem?_take, if_neg hj, if_neg (show ¬ j < pos by omega), List.getElem?_take,
      if_neg (show ¬ j + 1 < n by omega)]

/-! ## C14 -/

/-- Insertion into a line whose terminator sits in the last cell of the buffer:
the content is shifted as usual, the stores to the cell after the buffer are the
ones reported by the fault flag. -/
theorem keyChar_edge (env : Env) (pw : Nat) (s : State) (c : Nat)
    (hI : s.curIndex + s.StartIndex ≤ s.Index) (hne : s.Index ≠ LINE_LEN)
    (hcap : s.Index + 1 = s.w.CmdLine.length) (h16 : s.Index < 65535) (hc : c < 256) :
    ∃ s1, keyChar env pw s c = .cont s1 ∧ s1.Index = s.Index + 1 ∧
      s1.curIndex = s.curIndex + 1 ∧ s1.StartIndex = s.StartIndex ∧
      s1.w.CmdLine.length = s.w.CmdLine.length ∧ s1.w.fault = true ∧
      ∀ j, j ≤ s.Index → s1.w.load j =
        if j = s.curIndex + s.StartIndex then c
        else if s.curIndex + s.StartIndex < j then s.w.load (j - 1)
        else s.w.load j := by
  have e1 : toU16 ((s.curIndex : Int) + s.StartIndex) = s.curIndex + s.StartIndex := by
    unfold toU16; omega
  have e2 : toU16 (((s.curIndex + s.StartIndex : Nat) : Int) + 1) = s.curIndex + s.StartIndex + 1 := by
    unfold toU16; omega
  have e3 : toU16 ((s.Index : Int) + 1) = s.Index + 1 := by unfold toU16; omega
  have e4 : toU16 (((s.curIndex + s.StartIndex + 1 : Nat) : Int) - s.StartIndex) = s.curIndex + 1 := by
    unfold toU16; omega
  have e5 : c &&& 0xFF = c := and_ff_of_lt c hc
  -- the world after the shifting loop
  obtain ⟨w1, hw1, hl1, hld1⟩ : ∃ w1 : World,
      w1 = (if s.Index ≠ s.curIndex + s.StartIndex then
          insertShift (s.Index + 1 - (s.curIndex + s.StartIndex)) s.Index s.w else s.w) ∧
      w1.CmdLine.length = s.w.CmdLine.length ∧
      ∀ j, j ≤ s.Index → w1.load j =
        if s.curIndex + s.StartIndex < j then s.w.load (j - 1) else s.w.load j := by
    refine ⟨_, rfl, ?_, ?_⟩
    · split
      · rename_i hmid
        obtain ⟨n, hn⟩ : ∃ n, s.Index + 1 - (s.curIndex + s.StartIndex) = n + 1 :=
          ⟨s.Index - (s.curIndex + s.StartIndex), by omega⟩
        rw [hn]
        simp only [insertShift, touch_of_lt (show s.Index < s.w.CmdLine.length by omega)]
        rw [(insertShift_frame n (s.Index - 1) _ (by omega) (by simp only [store_length]; omega)).1]
        exact store_length _ _ _
      · rfl
    · intro j hj
      split
      · rename_i hmid
        obtain ⟨n, hn⟩ : ∃ n, s.Index + 1 - (s.curIndex + s.StartIndex) = n + 1 :=
          ⟨s.Index - (s.curIndex + s.StartIndex), by omega⟩
        have hst : s.w.store (s.Index + 1) (s.w.load s.Index) = { s.w with fault := true } := by
          simp [World.store, hcap]
        rw [hn]
        simp only [insertShift, touch_of_lt (show s.Index < s.w.CmdLine.length by omega), hst]
        rw [insertShift_load n (s.Index - 1) _ j (by omega) (by simp only; omega)]
        by_cases h3 : s.curIndex + s.StartIndex < j
        · rw [if_pos (by omega), if_pos h3]; rfl
        · rw [if_neg (by omega), if_neg h3]; rfl
      · rename_i hmid
        rw [if_neg (by omega)]
  have hw2l : (w1.store (s.curIndex + s.StartIndex) c).CmdLine.length = s.w.CmdLine.length := by
    rw [store_length, hl1]
  have hdrop : ∀ w : World, w.CmdLine.length = s.w.CmdLine.length →
      (w.store (s.Index + 1) 0).CmdLine = w.CmdLine ∧ (w.store (s.Index + 1) 0).fault = true := by
    intro w hw
    have : ¬ s.Index + 1 < w.CmdLine.length := by omega
    simp [World.store, this]
  have hecho := echo_frame env pw ((w1.store (s.curIndex + s.StartIndex) c).store (s.Index + 1) 0)
    (s.Index + 1) (s.curIndex + 1) s.StartIndex c
    (by rw [(hdrop _ hw2l).1, hw2l]; omega) (by omega) (by omega)
  simp only [keyChar, hne, ne_eq, not_false_eq_true, if_true, e1, e2, e3, e4, e5]
  rw [← hw1]
  refine ⟨_, rfl, rfl, rfl, rfl, ?_, ?_, ?_⟩
  · simp only; rw [hecho.1, (hdrop _ hw2l).1]; exact hw2l
  · simp only; rw [hecho.2]; exact (hdrop _ hw2l).2
  · intro j hj
    simp only
    rw [load_congr hecho.1 j, load_congr (hdrop _ hw2l).1 j,
      load_store _ _ (by rw [hl1]; omega)]
    by_cases h2 : j = s.curIndex + s.StartIndex
    · rw [if_pos h2, if_pos h2]
    · rw [if_neg h2, if_neg h2]; exact hld1 j hj

/-- C14: for every state satisfying the Line Buffer invariant (in a buffer of
MAX_CMD_SIZE cells) with length != LINE_LEN and every printable character c, with
pos = cursorOffset + segmentStart, the buffer content after the key is
old[0:pos] followed by c followed by old[pos:length], length is increased by
one, cursorOffset is increased by one and segmentStart is unchanged. While
length + 1 < MAX_CMD_SIZE the terminator 0 follows the content and no access
leaves the buffer. -/
theorem C14_insert_at (env : Env) (pw : Nat) (s : State) (c : Nat)
    (_hW : 0 < env.g_ColumnLen) (hInv : Inv s) (hne : s.Index ≠ LINE_LEN)
    (hcap : s.w.CmdLine.length = MAX_CMD_SIZE) (hc : isprint c = true) :
    ∃ s1, step env pw s c = .cont s1 ∧
      s1.content = s.content.take (s.curIndex + s.StartIndex) ++
        c :: s.content.drop (s.curIndex + s.StartIndex) ∧
      s1.Index = s.Index + 1 ∧ s1.curIndex = s.curIndex + 1 ∧
      s1.StartIndex = s.StartIndex ∧
      (s.Index + 1 < MAX_CMD_SIZE →
        s1.w.load (s.Index + 1) = 0 ∧ s1.w.fault = s.w.fault) := by
  have hM : MAX_CMD_SIZE = 255 := rfl
  have hb := (isprint_iff c).1 hc
  obtain ⟨_, hI, hle⟩ := hInv
  rw [step_printable env pw s c hc]
  by_cases hroom : s.Index + 1 < MAX_CMD_SIZE
  · obtain ⟨s1, h1, hI1, hC1, hS1, hl1, hf1, hld1⟩ :=
      keyChar_spec env pw s c hI hne (by omega) (by omega) (by omega)
    refine ⟨s1, h1, ?_, hI1, hC1, hS1, fun _ => ⟨by rw [hld1, if_pos rfl], hf1⟩⟩
    simp only [State.content, hI1]
    apply insert_content _ _ _ _ _ hI (by omega) hl1
    intro j hj
    have e := hld1 j
    simp only [World.load] at e
    rw [e, if_neg (by omega)]
    by_cases h2 : j = s.curIndex + s.StartIndex
    · rw [if_pos h2, if_pos h2]
    · rw [if_neg h2, if_neg h2]
      by_cases h3 : s.curIndex + s.StartIndex < j
      · rw [if_pos ⟨h3, hj⟩, if_pos h3]
      · rw [if_neg (fun h => h3 h.1), if_neg h3]
  · obtain ⟨s1, h1, hI1, hC1, hS1, hl1, _, hld1⟩ :=
      keyChar_edge env pw s c hI hne (by omega) (by omega) (by omega)
    refine ⟨s1, h1, ?_, hI1, hC1, hS1, fun h => absurd h hroom⟩
    simp only [State.content, hI1]
    apply insert_content _ _ _ _ _ hI (by omega) hl1
    intro j hj
    have e := hld1 j hj
    simp only [World.load] at e
    exact e

set_option maxRecDepth 100000 in
/-- C14 witness: the letter x inserted between the two characters of `ab`. -/
theorem C14_insert_at_witness :
    ∃ s1, step mainEnv 0 midLineState 120 = .cont s1 ∧ s1.content = [97, 120, 98] ∧
      s1.Index = 3 ∧ s1.curIndex = 2 := by
  obtain ⟨s1, h1, hc, hI, hC, _⟩ :=
    C14_insert_at mainEnv 0 midLineState 120 (by decide) (by decide) (by decide)
      (by decide) (by decide)
  refine ⟨s1, h1, ?_, hI, hC⟩
  rw [hc]; decide

set_option maxRecDepth 100000 in
/-- A prefilled line of length 254 in a buffer of MAX_CMD_SIZE cells: a printable
character gives length 255, the size of the buffer, and the store of the
terminator at index 255 falls outside the buffer. -/
theorem insert_at_254_leaves_buffer :
    Inv (initState mainBuf 254) ∧ (initState mainBuf 254).Index ≠ LINE_LEN ∧
    (GetCmdLine mainEnv mainBuf 254 0 [97]).state.Index = 255 ∧
    (GetCmdLine mainEnv mainBuf 254 0 [97]).state.w.CmdLine.length = 255 ∧
    (GetCmdLine mainEnv mainBuf 254 0 [97]).state.w.fault = true := by
  decide

/-! ## C15, C16, C17 -/

/-- C15: for every state satisfying the Line Buffer invariant (in a buffer of
MAX_CMD_SIZE cells) with length > segmentStart and cursorOffset != 0, Backspace
(code 8 or 127) removes exactly the character at index
cursorOffset-1+segmentStart: the content `[0:length-1]` afterwards is the old
content with that index removed, with the cursor mid-content or at the end; length
and cursorOffset are decremented by one, segmentStart is unchanged and no access
leaves the buffer. -/
theorem C15_backspace_removes (env : Env) (pw : Nat) (s : State) (bk : Nat)
    (_hW : 0 < env.g_ColumnLen) (hInv : Inv s) (hcap : s.w.CmdLine.length = MAX_CMD_SIZE)
    (hgt : s.Index > s.StartIndex) (hcur : s.curIndex ≠ 0)
    (hbk : bk = REX_KEY_BACKSPACE ∨ bk = SSH_BACKSPACE) :
    ∃ s2, step env pw s bk = .cont s2 ∧
      s2.content = s.content.eraseIdx (s.curIndex - 1 + s.StartIndex) ∧
      s2.Index = s.Index - 1 ∧ s2.curIndex = s.curIndex - 1 ∧
      s2.StartIndex = s.StartIndex ∧ s2.w.fault = s.w.fault := by
  have hM : MAX_CMD_SIZE = 255 := rfl
  obtain ⟨_, hI, hle⟩ := hInv
  obtain ⟨s2, h2, hI2, hC2, hS2, hl2, hf2, hld2, _⟩ :=
    keyBackspace_spec env s hI hgt hcur (by omega) (by omega)
  refine ⟨s2, ?_, ?_, hI2, hC2, hS2, hf2⟩
  · rcases hbk with rfl | rfl
    · rw [step_backspace]; exact h2
    · rw [step_ssh_backspace]; exact h2
  · simp only [State.content, hI2]
    apply erase_content _ _ _ _ (by omega) (by omega) hl2
    intro j hj
    have e := hld2 j hj
    simp only [World.load] at e
    exact e

set_option maxRecDepth 100000 in
/-- C15 witness: Backspace on the line `ab` with the cursor between the two
characters removes the a. -/
theorem C15_backspace_removes_witness :
    ∃ s2, step mainEnv 0 midLineState REX_KEY_BACKSPACE = .cont s2 ∧ s2.content = [98] ∧
      s2.Index = 1 ∧ s2.curIndex = 0 := by
  obtain ⟨s2, h2, hc, hI, hC, _⟩ :=
    C15_backspace_removes mainEnv 0 midLineState REX_KEY_BACKSPACE (by decide) (by decide)
      (by decide) (by decide) (by decide) (Or.inl rfl)
  refine ⟨s2, h2, ?_, hI, hC⟩
  rw [hc]; decide

set_option maxRecDepth 100000 in
/-- C16 (failing input): after a, b, backslash, Enter, c the cursor is at the end
of the line (length 3, segmentStart 2, cursorOffset 1 = length - segmentStart).
Delete then erases the c: it writes backspace, space, backspace, stores 0 over the
character and leaves length 2 and cursorOffset 0. With segmentStart 0 (the line
`ab`, cursor at the end) Delete changes nothing. -/
theorem C16_delete_at_end_of_continued_line :
    (GetCmdLine mainEnv mainBuf 0 0 [97, 98, 92, 10, 99]).state.Index = 3 ∧
    (GetCmdLine mainEnv mainBuf 0 0 [97, 98, 92, 10, 99]).state.StartIndex = 2 ∧
    (GetCmdLine mainEnv mainBuf 0 0 [97, 98, 92, 10, 99]).state.curIndex = 1 ∧
    (GetCmdLine mainEnv mainBuf 0 0 [97, 98, 92, 10, 99]).state.content = [97, 98, 99] ∧
    (GetCmdLine mainEnv mainBuf 0 0 [97, 98, 92, 10, 99]).state.w.out = [97, 98, 92, 10, 99] ∧
    (GetCmdLine mainEnv mainBuf 0 0 [97, 98, 92, 10, 99, REX_KEY_DEL]).state.Index = 2 ∧
    (GetCmdLine mainEnv mainBuf 0 0 [97, 98, 92, 10, 99, REX_KEY_DEL]).state.curIndex = 0 ∧
    (GetCmdLine mainEnv mainBuf 0 0 [97, 98, 92, 10, 99, REX_KEY_DEL]).state.w.CmdLine.take 3
      = [97, 98, 0] ∧
    (GetCmdLine mainEnv mainBuf 0 0 [97, 98, 92, 10, 99, REX_KEY_DEL]).state.w.out
      = [97, 98, 92, 10, 99, 8, 32, 8] ∧
    GetCmdLine mainEnv mainBuf 0 0 [97, 98, REX_KEY_DEL] =
      GetCmdLine mainEnv mainBuf 0 0 [97, 98] := by
  decide

/-- C17 (amended): for every state satisfying the Line Buffer invariant (in a
buffer of MAX_CMD_SIZE cells) with length > segmentStart and
cursorOffset != length - segmentStart, Delete removes exactly the character at
index cursorOffset+segmentStart (content[pos+1..length] shifted left by one) and
decrements length by one; cursorOffset and segmentStart are unchanged, also when
the deleted slot was the last one before length. -/
theorem C17_delete_removes (env : Env) (pw : Nat) (s : State)
    (_hW : 0 < env.g_ColumnLen) (hInv : Inv s) (hcap : s.w.CmdLine.length = MAX_CMD_SIZE)
    (hgt : s.Index > s.StartIndex) (hcur : s.curIndex ≠ s.Index - s.StartIndex) :
    ∃ s2, step env pw s REX_KEY_DEL = .cont s2 ∧
      s2.content = s.content.eraseIdx (s.curIndex + s.StartIndex) ∧
      s2.Index = s.Index - 1 ∧ s2.curIndex = s.curIndex ∧
      s2.StartIndex = s.StartIndex ∧ s2.w.load (s.Index - 1) = s.w.load s.Index ∧
      s2.w.fault = s.w.fault := by
  have hM : MAX_CMD_SIZE = 255 := rfl
  obtain ⟨_, hI, hle⟩ := hInv
  obtain ⟨s2, h2, hI2, hC2, hS2, hl2, hf2, hld2⟩ :=
    keyDelete_spec env s (by omega) (by omega) (by omega)
  refine ⟨s2, by rw [step_del]; exact h2, ?_, hI2, hC2, hS2, ?_, hf2⟩
  · simp only [State.content, hI2]
    apply erase_content _ _ _ _ (by omega) (by omega) hl2
    intro j hj
    have e := hld2 j
    simp only [World.load] at e
    rw [e]
    by_cases hp : s.curIndex + s.StartIndex ≤ j
    · rw [if_pos ⟨hp, by omega⟩, if_pos hp]
    · rw [if_neg (fun h => hp h.1), if_neg hp]
  · rw [hld2, if_pos (by omega), show s.Index - 1 + 1 = s.Index by omega]

set_option maxRecDepth 100000 in
/-- C17 witness: Delete on the line `ab` with the cursor on the b. -/
theorem C17_delete_removes_witness :
    ∃ s2, step mainEnv 0 midLineState REX_KEY_DEL = .cont s2 ∧ s2.content = [97] ∧
      s2.Index = 1 ∧ s2.curIndex = 1 := by
  obtain ⟨s2, h2, hc, hI, hC, _⟩ :=
    C17_delete_removes mainEnv 0 midLineState (by decide) (by decide) (by decide)
      (by decide) (by decide)
  refine ⟨s2, h2, ?_, hI, hC⟩
  rw [hc]; decide

set_option maxRecDepth 100000 in
/-- C17 counterexample: on the line `ab` with cursorOffset 1 the slot Delete
removes, index 1, is the last one before length 2; length becomes 1 and
cursorOffset stays 1, it is not decremented. -/
theorem C17_counterexample_cursor_stays :
    Inv midLineState ∧ midLineState.Index > midLineState.StartIndex ∧
    midLineState.curIndex ≠ midLineState.Index - midLineState.StartIndex ∧
    midLineState.curIndex + midLineState.StartIndex = midLineState.Index - 1 ∧
    (editLoop mainEnv 0 midLineState [REX_KEY_DEL]).state.content = [97] ∧
    (editLoop mainEnv 0 midLineState [REX_KEY_DEL]).state.Index = 1 ∧
    (editLoop mainEnv 0 midLineState [REX_KEY_DEL]).state.curIndex = 1 := by
  decide

/-! ## C18, C19, C20 -/

set_option maxRecDepth 100000 in
/-- C18 (failing input): a prefilled line of 79 characters in a terminal of 80
columns, cursor at the end. Enter terminates the read and writes two newlines,
one more than one newline followed by (79 + 0) div 80 - (79 + 0) div 80 = 0
additional ones: the row count for the length is taken from `Index` after its
increment, (79 + 1) div 80 = 1. At length 78 both counts agree. -/
theorem C18_extra_newline_at_row_end :
    (GetCmdLine mainEnv (List.replicate 79 97 ++ List.replicate 176 0) 79 0
      [REX_KEY_NEWLINE]).isReturned = true ∧
    (GetCmdLine mainEnv (List.replicate 79 97 ++ List.replicate 176 0) 79 0
      [REX_KEY_NEWLINE]).state.w.out = [10, 10] ∧
    (79 + PROMPT_STR_LEN) / mainEnv.g_ColumnLen - (79 + PROMPT_STR_LEN) / mainEnv.g_ColumnLen = 0 ∧
    (GetCmdLine mainEnv (List.replicate 78 97 ++ List.replicate 177 0) 78 0
      [REX_KEY_NEWLINE]).state.w.out = [10] := by
  decide

/-- C19: Left or Backspace (code 8 or 127) in a state where
length <= segmentStart or cursorOffset = 0, and Right in a state where
length <= cursorOffset + segmentStart, leave buffer content, length, cursorOffset
and segmentStart unchanged; Left and Right then write nothing to the terminal,
and Backspace writes exactly one bell. -/
theorem C19_ignored_motion (env : Env) (pw : Nat) (s : State) :
    ((s.Index ≤ s.StartIndex ∨ s.curIndex = 0) →
      step env pw s REX_KEY_LEFT = .cont s ∧
      step env pw s REX_KEY_BACKSPACE = .cont { s with w := s.w.emit [REX_KEY_BELL] } ∧
      step env pw s SSH_BACKSPACE = .cont { s with w := s.w.emit [REX_KEY_BELL] }) ∧
    (s.Index ≤ s.curIndex + s.StartIndex → step env pw s REX_KEY_RIGHT = .cont s) := by
  have hbell : ConsoleBell env = [REX_KEY_BELL] := by
    unfold ConsoleBell REX_KEY_BELL; exact ConsolePutChar_ascii env (by omega)
  constructor
  · intro h
    have hn : ¬ (s.Index > s.StartIndex ∧ s.curIndex ≠ 0) := by omega
    refine ⟨?_, ?_, ?_⟩
    · rw [step_left, keyLeft, if_neg hn]
    · rw [step_backspace, keyBackspace, if_neg hn, hbell]
    · rw [step_ssh_backspace, keyBackspace, if_neg hn, hbell]
  · intro h
    have hn : ¬ (s.Index > s.curIndex + s.StartIndex) := by omega
    rw [step_right, keyRight, if_neg hn]

set_option maxRecDepth 100000 in
/-- C19 witness: on the line `hello` with the cursor at the end Right is ignored;
on the empty line of a fresh call Left is ignored and Backspace rings the bell. -/
theorem C19_ignored_motion_witness :
    step mainEnv 0 helloState REX_KEY_RIGHT = .cont helloState ∧
    step mainEnv 0 (initState mainBuf 0) REX_KEY_LEFT = .cont (initState mainBuf 0) ∧
    (editLoop mainEnv 0 (initState mainBuf 0) [REX_KEY_BACKSPACE]).state.w.out = [7] := by
  have h1 := (C19_ignored_motion mainEnv 0 helloState).2 (by decide)
  have h2 := (C19_ignored_motion mainEnv 0 (initState mainBuf 0)).1 (Or.inr rfl)
  refine ⟨h1, h2.1, ?_⟩
  rw [editLoop_cont h2.2.1]
  rfl

theorem insertShift_length : ∀ (n i : Nat) (w : World),
    (insertShift n i w).CmdLine.length = w.CmdLine.length := by
  intro n
  induction n with
  | zero => intro i w; rfl
  | succ n ih => intro i w; simp only [insertShift]; rw [ih]; simp

theorem eraseShift_length (env : Env) : ∀ (n d : Nat) (w : World),
    (eraseShift env n d w).CmdLine.length = w.CmdLine.length := by
  intro n
  induction n with
  | zero => intro d w; rfl
  | succ n ih => intro d w; simp only [eraseShift]; rw [ih]; simp

theorem EraseDelChar_length (env : Env) (w : World) (c i : Nat) :
    (EraseDelChar env w c i).CmdLine.length = w.CmdLine.length := by
  unfold EraseDelChar
  split
  · rfl
  split
  · simp only
    split
    · rfl
    · simp
  · simp only [emit_CmdLine]
    split <;> simp [eraseShift_length]

theorem PutCmdLine_length (env : Env) (w : World) (i c st d : Nat) :
    (PutCmdLine env w i c st d).CmdLine.length = w.CmdLine.length := by
  unfold PutCmdLine
  simp only [emit_CmdLine]
  split <;> simp [putLoop_CmdLine]

theorem initState_reach (buf : List Nat) (n : Nat) (hn : n ≤ LINE_LEN)
    (hb : buf.length = MAX_CMD_SIZE) : Reach (initState buf n) :=
  ⟨Nat.le_refl _, Nat.zero_le _, hn, hb⟩

theorem keyHome_reach (env : Env) (s : State) (h : Reach s) :
    ∃ s1, keyHome env s = .cont s1 ∧ Reach s1 := by
  obtain ⟨_, h2, h3, h4⟩ := h
  exact ⟨_, rfl, Nat.zero_le _, h2, h3, h4⟩

theorem keyEnd_reach (env : Env) (s : State) (h : Reach s) :
    ∃ s1, keyEnd env s = .cont s1 ∧ Reach s1 := by
  obtain ⟨_, h2, h3, h4⟩ := h
  refine ⟨_, rfl, ?_, h2, h3, ?_⟩
  · show toU16 ((s.Index : Int) - s.StartIndex) ≤ s.Index
    unfold toU16; omega
  · show (PutCmdLine env s.w s.Index s.curIndex s.StartIndex 0).CmdLine.length = _
    rw [PutCmdLine_length]; exact h4

theorem keyEscape_reach (env : Env) (s : State) (h : Reach s) :
    ∃ s1, keyEscape env s = .cont s1 ∧ Reach s1 := by
  unfold keyEscape
  split
  · exact ⟨_, rfl, h⟩
  · obtain ⟨_, _, _, h4⟩ := h
    refine ⟨_, rfl, Nat.le_refl _, ?_, Nat.zero_le _, ?_⟩
    · show s.StartIndex ≤ 0
      omega
    · show ((if s.curIndex ≠ s.Index then putLoop env s.w s.curIndex s.Index
        else s.w).emit (EraseCmdLine env s.Index)).CmdLine.length = _
      rw [emit_CmdLine]
      split
      · rw [putLoop_CmdLine]; exact h4
      · exact h4

theorem keyLeft_reach (env : Env) (s : State) (h : Reach s) :
    ∃ s1, keyLeft env s = .cont s1 ∧ Reach s1 := by
  unfold keyLeft
  split
  · obtain ⟨h1, h2, h3, h4⟩ := h
    refine ⟨_, rfl, ?_, h2, h3, h4⟩
    show toU16 ((s.curIndex : Int) - 1) ≤ s.Index
    unfold toU16; omega
  · exact ⟨_, rfl, h⟩

theorem keyRight_reach (env : Env) (s : State) (h : Reach s) :
    ∃ s1, keyRight env s = .cont s1 ∧ Reach s1 := by
  unfold keyRight
  split
  · obtain ⟨h1, h2, h3, h4⟩ := h
    refine ⟨_, rfl, ?_, h2, h3, h4⟩
    show toU16 ((s.curIndex : Int) + 1) ≤ s.Index
    unfold toU16; omega
  · exact ⟨_, rfl, h⟩

theorem keyTab_reach (s : State) (h : Reach s) :
    ∃ s1, keyTab s = .cont s1 ∧ Reach s1 := by
  obtain ⟨_, h2, h3, h4⟩ := h
  exact ⟨_, rfl, Nat.le_refl _, h2, h3, h4⟩
theorem keyBackspace_reach (env : Env) (s : State) (h : Reach s) :
    ∃ s1, keyBackspace env s = .cont s1 ∧ Reach s1 := by
  obtain ⟨h1, h2, h3, h4⟩ := h
  have hL : LINE_LEN = 250 := rfl
  have hM : MAX_CMD_SIZE = 255 := rfl
  unfold keyBackspace
  by_cases c1 : s.Index > s.StartIndex ∧ s.curIndex ≠ 0
  · rw [if_pos c1]
    have e1 : toU16 ((s.curIndex : Int) - 1) ≤ toU16 ((s.Index : Int) - 1) := by
      unfold toU16; omega
    have e2 : s.StartIndex ≤ toU16 ((s.Index : Int) - 1) := by unfold toU16; omega
    have e3 : toU16 ((s.Index : Int) - 1) ≤ LINE_LEN := by unfold toU16; omega
    by_cases c2 : s.curIndex + s.StartIndex ≠ s.Index
    · rw [if_pos c2]
      refine ⟨_, rfl, e1, e2, e3, ?_⟩
      show (EraseDelChar env _ _ _).CmdLine.length = _
      rw [EraseDelChar_length]; exact h4
    · rw [if_neg c2]
      have c3 : ¬ s.Index > MAX_CMD_SIZE := by omega
      simp only [if_neg c3]
      refine ⟨_, rfl, e1, e2, e3, ?_⟩
      show (World.store _ _ _).CmdLine.length = _
      rw [store_length]; exact h4
  · rw [if_neg c1]
    exact ⟨_, rfl, h1, h2, h3, h4⟩

theorem keyDelete_reach (env : Env) (s : State) (h : Reach s) :
    ∃ s1, keyDelete env s = .cont s1 ∧ Reach s1 := by
  obtain ⟨h1, h2, h3, h4⟩ := h
  have hL : LINE_LEN = 250 := rfl
  unfold keyDelete
  by_cases c1 : s.Index > s.StartIndex ∧ s.curIndex ≠ s.Index
  · rw [if_pos c1]
    refine ⟨_, rfl, ?_, ?_, ?_, ?_⟩
    · show (if s.Index = s.StartIndex + s.curIndex then toU16 ((s.curIndex : Int) - 1)
        else s.curIndex) ≤ toU16 ((s.Index : Int) - 1)
      split <;> (unfold toU16; omega)
    · show s.StartIndex ≤ toU16 ((s.Index : Int) - 1)
      unfold toU16; omega
    · show toU16 ((s.Index : Int) - 1) ≤ LINE_LEN
      unfold toU16; omega
    · show (EraseDelChar env _ _ _).CmdLine.length = _
      rw [EraseDelChar_length]; exact h4
  · rw [if_neg c1]
    exact ⟨_, rfl, h1, h2, h3, h4⟩

/-- A printable character in a reachable state: the length grows by at most one
and stays within `LINE_LEN`. -/
theorem keyChar_reach (env : Env) (pw : Nat) (s : State) (ch : Nat) (h : Reach s) :
    ∃ s1, keyChar env pw s ch = .cont s1 ∧ Reach s1 := by
  obtain ⟨h1, h2, h3, h4⟩ := h
  have hL : LINE_LEN = 250 := rfl
  unfold keyChar
  by_cases c1 : s.Index ≠ LINE_LEN
  · rw [if_pos c1]
    refine ⟨_, rfl, ?_, ?_, ?_, ?_⟩
    · show toU16 ((toU16 ((toU16 ((s.curIndex : Int) + s.StartIndex) : Int) + 1) : Int) -
        s.StartIndex) ≤ toU16 ((s.Index : Int) + 1)
      unfold toU16; omega
    · show s.StartIndex ≤ toU16 ((s.Index : Int) + 1)
      unfold toU16; omega
    · show toU16 ((s.Index : Int) + 1) ≤ LINE_LEN
      unfold toU16; omega
    · simp only
      split
      · rw [PutCmdLine_length, store_length, store_length]
        split
        · rw [insertShift_length]; exact h4
        · exact h4
      split
      · rw [emit_CmdLine, store_length, store_length]
        split
        · rw [insertShift_length]; exact h4
        · exact h4
      split
      · rw [emit_CmdLine, emit_CmdLine, emit_CmdLine, store_length, store_length]
        split
        · rw [insertShift_length]; exact h4
        · exact h4
      · rw [emit_CmdLine, store_length, store_length]
        split
        · rw [insertShift_length]; exact h4
        · exact h4
  · rw [if_neg c1]
    exact ⟨_, rfl, h1, h2, h3, h4⟩
/-- Enter on a line continuation in a reachable state reads on in a reachable
state. -/
theorem keyEnter_reach_continue (env : Env) (s : State) (h : Reach s)
    (hc : s.Index > s.StartIndex ∧ s.w.load (s.Index - 1) = 92) :
    ∃ s1, keyEnter env s = .cont s1 ∧ Reach s1 := by
  obtain ⟨h1, h2, h3, h4⟩ := h
  have hL : LINE_LEN = 250 := rfl
  unfold keyEnter
  rw [if_pos hc.1]
  simp only [touch_load]
  rw [if_pos hc.2]
  by_cases c1 : s.Index = 1
  · rw [if_pos c1]
    refine ⟨_, rfl, Nat.le_refl _, ?_, Nat.zero_le _, ?_⟩
    · show s.StartIndex ≤ 0
      omega
    · show ((s.w.touch (s.Index - 1)).emit (EraseChar env)).CmdLine.length = _
      rw [emit_CmdLine, touch_CmdLine]; exact h4
  · rw [if_neg c1]
    refine ⟨_, rfl, Nat.zero_le _, Nat.le_refl _, ?_, ?_⟩
    · show toU16 ((s.Index : Int) - 1) ≤ LINE_LEN
      unfold toU16; omega
    · simp only [emit_CmdLine]
      split
      · rw [putLoop_CmdLine, touch_CmdLine]; exact h4
      · rw [touch_CmdLine]; exact h4

/-- Enter that is not a line continuation, in a reachable state: the length limit
is not met, so the sentinel is stored inside the buffer, the count of the newline
loop is not negative, and the read ends. -/
theorem keyEnter_reach_plain (env : Env) (s : State) (h : Reach s)
    (hnc : ¬ (s.Index > s.StartIndex ∧ s.w.load (s.Index - 1) = 92)) :
    ∃ s1, keyEnter env s = .brk s1 ∧ s1.Index = s.Index + 1 ∧
      s1.curIndex = s.curIndex ∧ s1.StartIndex = s.StartIndex ∧
      s1.w.CmdLine = s.w.CmdLine.set s.Index 0 ∧ s1.w.fault = s.w.fault ∧
      s1.w.out = s.w.out ++ 10 :: List.replicate
        ((s.Index + 1 + PROMPT_STR_LEN) / env.g_ColumnLen -
          (s.curIndex + PROMPT_STR_LEN) / env.g_ColumnLen) 10 := by
  obtain ⟨h1, h2, h3, h4⟩ := h
  have hL : LINE_LEN = 250 := rfl
  have hM : MAX_CMD_SIZE = 255 := rfl
  have hw : (if s.Index > s.StartIndex then s.w.touch (s.Index - 1) else s.w) = s.w := by
    split
    · exact touch_of_lt (by omega)
    · rfl
  rw [keyEnter_plain env s hnc, hw]
  exact enterFinish_accept env s s.w (by omega) (by omega) (by omega)

/-- One key in a reachable state: either the loop goes on in a reachable state, or
the key is an Enter that is not a continuation and the read ends. No key executes
`return 0` inside the loop. -/
theorem step_reach (env : Env) (pw : Nat) (s : State) (ch : Nat) (h : Reach s) :
    (∃ s1, step env pw s ch = .cont s1 ∧ Reach s1) ∨
    (ch = REX_KEY_NEWLINE ∧ ¬ (s.Index > s.StartIndex ∧ s.w.load (s.Index - 1) = 92) ∧
      ∃ s1, step env pw s ch = .brk s1 ∧ s1.Index = s.Index + 1 ∧
        s1.curIndex = s.curIndex ∧ s1.StartIndex = s.StartIndex ∧
        s1.w.CmdLine = s.w.CmdLine.set s.Index 0 ∧ s1.w.fault = s.w.fault ∧
        s1.w.out = s.w.out ++ 10 :: List.replicate
          ((s.Index + 1 + PROMPT_STR_LEN) / env.g_ColumnLen -
            (s.curIndex + PROMPT_STR_LEN) / env.g_ColumnLen) 10) := by
  by_cases k1 : ch = REX_KEY_HOME
  · subst k1; exact Or.inl (keyHome_reach env s h)
  by_cases k2 : ch = REX_KEY_END
  · subst k2; exact Or.inl (keyEnd_reach env s h)
  by_cases k3 : ch = REX_KEY_ESCAPE
  · subst k3; exact Or.inl (keyEscape_reach env s h)
  by_cases k4 : ch = REX_KEY_LEFT
  · subst k4; exact Or.inl (keyLeft_reach env s h)
  by_cases k5 : ch = REX_KEY_RIGHT
  · subst k5; exact Or.inl (keyRight_reach env s h)
  by_cases k6 : ch = REX_KEY_BACKSPACE ∨ ch = SSH_BACKSPACE
  · have hs : step env pw s ch = keyBackspace env s := by
      rcases k6 with e | e <;> rw [e]
      · exact step_backspace env pw s
      · exact step_ssh_backspace env pw s
    rw [hs]; exact Or.inl (keyBackspace_reach env s h)
  by_cases k7 : ch = REX_KEY_DEL
  · subst k7; exact Or.inl (keyDelete_reach env s h)
  by_cases k8 : ch = REX_KEY_TAB
  · subst k8; exact Or.inl (keyTab_reach s h)
  by_cases k9 : ch = REX_KEY_NEWLINE
  · subst k9
    rw [step_enter]
    by_cases hc : s.Index > s.StartIndex ∧ s.w.load (s.Index - 1) = 92
    · exact Or.inl (keyEnter_reach_continue env s h hc)
    · exact Or.inr ⟨rfl, hc, keyEnter_reach_plain env s h hc⟩
  have hs : step env pw s ch =
      if ch &&& 0xFF00 ≠ 0 then .cont { s with w := s.w.emit (ConsoleBell env) }
      else if !isprint ch then .cont { s with w := s.w.emit (ConsoleBell env) }
      else keyChar env pw s ch := by
    simp only [step, k1, k2, k3, k4, k5, k6, k7, k8, k9, if_false]
  rw [hs]
  left
  split
  · exact ⟨_, rfl, h⟩
  split
  · exact ⟨_, rfl, h⟩
  · exact keyChar_reach env pw s ch h
/-- Any run of keys from a reachable state that has not ended is in a reachable
state. -/
theorem editLoop_reading_reach (env : Env) (pw : Nat) : ∀ (keys : List Nat) (s s1 : State),
    Reach s → editLoop env pw s keys = .reading s1 → Reach s1 := by
  intro keys
  induction keys with
  | nil =>
    intro s s1 h e
    simp only [editLoop] at e
    cases e
    exact h
  | cons ch rest ih =>
    intro s s1 h e
    rcases step_reach env pw s ch h with ⟨s2, h2, r2⟩ | ⟨_, _, s2, h2, _⟩
    · rw [editLoop_cont h2] at e
      exact ih s2 s1 r2 e
    · rw [editLoop_brk h2] at e
      cases e

/-- A run of keys from a reachable state that has ended was ended by an Enter that
was not a continuation, pressed in a reachable state. -/
theorem editLoop_returned_reach (env : Env) (pw : Nat) :
    ∀ (keys : List Nat) (s s1 : State) (v : Nat) (rest : List Nat),
    Reach s → editLoop env pw s keys = .returned s1 v rest →
    ∃ s0, Reach s0 ∧ ¬ (s0.Index > s0.StartIndex ∧ s0.w.load (s0.Index - 1) = 92) ∧
      step env pw s0 REX_KEY_NEWLINE = .brk s1 := by
  intro keys
  induction keys with
  | nil =>
    intro s s1 v rest h e
    simp only [editLoop] at e
    cases e
  | cons ch tl ih =>
    intro s s1 v rest h e
    rcases step_reach env pw s ch h with ⟨s2, h2, r2⟩ | ⟨hch, hnc, s2, h2, _⟩
    · rw [editLoop_cont h2] at e
      exact ih s2 s1 v rest r2 e
    · rw [editLoop_brk h2] at e
      cases e
      subst hch
      exact ⟨s, h, hnc, h2⟩

/-- Whatever ends the loop, the value `GetCmdLine` returns is 0. -/
theorem editLoop_value (env : Env) (pw : Nat) :
    ∀ (keys : List Nat) (s s1 : State) (v : Nat) (rest : List Nat),
    editLoop env pw s keys = .returned s1 v rest → v = 0 := by
  intro keys
  induction keys with
  | nil =>
    intro s s1 v rest e
    simp only [editLoop] at e
    cases e
  | cons ch tl ih =>
    intro s s1 v rest e
    cases hs : step env pw s ch with
    | cont s2 =>
      rw [editLoop_cont hs] at e
      exact ih s2 s1 v rest e
    | brk s2 =>
      rw [editLoop_brk hs] at e
      cases e
      rfl
    | ret s2 =>
      rw [editLoop_ret hs] at e
      cases e
      rfl
/-! ## C21: accesses outside the buffer -/

set_option maxRecDepth 100000 in
/-- C21 (code defect): a call of `GetCmdLine` on a buffer of `MAX_CMD_SIZE` cells
with a prefilled length of 200 <= LINE_LEN, the line ending in a backslash. Enter
continues the line (length 199, segmentStart 199) and Tab sets cursorOffset to 199
without any access outside the buffer. The next printable character is stored at
index cursorOffset + segmentStart = 398, which is not below `MAX_CMD_SIZE`. -/
theorem C21_write_outside_after_tab :
    continuedBuf.length = MAX_CMD_SIZE ∧ 200 ≤ LINE_LEN ∧
    GetCmdLine mainEnv continuedBuf 200 0 [REX_KEY_NEWLINE, REX_KEY_TAB] =
      .reading { w := { CmdLine := continuedBuf, out := [10], fault := false },
                 Index := 199, curIndex := 199, StartIndex := 199 } ∧
    toU16 ((199 : Int) + 199) = 398 ∧ ¬ 398 < MAX_CMD_SIZE ∧
    (GetCmdLine mainEnv continuedBuf 200 0 [REX_KEY_NEWLINE, REX_KEY_TAB, 98]).state.w.fault
      = true := by
  decide
/-! ## C22: the length never passes `LINE_LEN` -/

/-- C22: when `GetCmdLine` is started with a prefilled length <= LINE_LEN (250) on a
buffer of `MAX_CMD_SIZE` cells, then after every sequence of keys that has not ended
the read the length is <= LINE_LEN, no key makes the loop execute `return 0` (the
length-limit rejection of Enter is unreachable), and an Enter that is not a line
continuation ends the read with the sentinel 0 stored at content[length], inside the
buffer. When the read has ended, the sentinel sits at the index of the final length,
which is <= LINE_LEN. -/
theorem C22_length_within_line_len (env : Env) (buf : List Nat) (n pw : Nat)
    (keys : List Nat) (hn : n ≤ LINE_LEN) (hb : buf.length = MAX_CMD_SIZE) :
    (∀ s, GetCmdLine env buf n pw keys = .reading s →
      s.Index ≤ LINE_LEN ∧ (∀ ch s1, step env pw s ch ≠ .ret s1) ∧
      (¬ (s.Index > s.StartIndex ∧ s.w.load (s.Index - 1) = 92) →
        ∃ s1, step env pw s REX_KEY_NEWLINE = .brk s1 ∧ s1.Index = s.Index + 1 ∧
          s1.w.load s.Index = 0 ∧ s1.w.fault = s.w.fault)) ∧
    (∀ s v rest, GetCmdLine env buf n pw keys = .returned s v rest →
      1 ≤ s.Index ∧ s.Index - 1 ≤ LINE_LEN ∧ s.w.load (s.Index - 1) = 0) := by
  have h0 := initState_reach buf n hn hb
  have hM : MAX_CMD_SIZE = 255 := rfl
  have hL : LINE_LEN = 250 := rfl
  have sent : ∀ s s1 : State, Reach s → s1.w.CmdLine = s.w.CmdLine.set s.Index 0 →
      s1.w.load s.Index = 0 := by
    intro s s1 hr e
    have hlt : s.Index < s.w.CmdLine.length := by have := hr.2.2; omega
    unfold World.load
    rw [e]
    exact getD_set_self _ _ _ hlt
  constructor
  · intro s e
    have hr := editLoop_reading_reach env pw keys _ s h0 e
    refine ⟨hr.2.2.1, ?_, ?_⟩
    · intro ch s1 hs
      rcases step_reach env pw s ch hr with ⟨s2, h2, _⟩ | ⟨_, _, s2, h2, _⟩
      · rw [h2] at hs; cases hs
      · rw [h2] at hs; cases hs
    · intro hnc
      obtain ⟨s1, h1, hI, _, _, hC, hF, _⟩ := keyEnter_reach_plain env s hr hnc
      exact ⟨s1, by rw [step_enter]; exact h1, hI, sent s s1 hr hC, hF⟩
  · intro s v rest e
    obtain ⟨s0, hr, hnc, hs⟩ := editLoop_returned_reach env pw keys _ s v rest h0 e
    obtain ⟨s1, h1, hI, _, _, hC, _, _⟩ := keyEnter_reach_plain env s0 hr hnc
    rw [step_enter, h1] at hs
    have hs1 : s1 = s := by injection hs
    subst hs1
    have := hr.2.2.1
    refine ⟨by omega, by omega, ?_⟩
    rw [hI, Nat.add_sub_cancel]
    exact sent s0 s1 hr hC

set_option maxRecDepth 100000 in
/-- C22 witness: after `hello` typed into an empty buffer of `main` the length is 5,
and Enter ends the read with the sentinel at index 5. -/
theorem C22_length_within_line_len_witness :
    helloState.Index ≤ LINE_LEN ∧
    ∃ s1, step mainEnv 0 helloState REX_KEY_NEWLINE = .brk s1 ∧ s1.Index = 6 ∧
      s1.w.load 5 = 0 := by
  have h := (C22_length_within_line_len mainEnv mainBuf 0 0 [104, 101, 108, 108, 111]
    (by decide) (by decide)).1 helloState (by decide)
  obtain ⟨s1, h1, h2, h3, _⟩ := h.2.2 (by decide)
  exact ⟨h.1, s1, h1, h2, h3⟩

/-! ## C23: the return value -/

/-- C23: whenever `GetCmdLine` returns, the value it returns is 0, whether the read
was ended by an accepted Enter (`break`) or by a rejection (`return 0` inside the
loop). -/
theorem C23_return_value_is_zero (env : Env) (buf : List Nat) (n pw : Nat)
    (keys : List Nat) (h : (GetCmdLine env buf n pw keys).isReturned = true) :
    ∃ s rest, GetCmdLine env buf n pw keys = .returned s 0 rest := by
  cases e : GetCmdLine env buf n pw keys with
  | reading s => rw [e] at h; cases h
  | returned s v rest =>
    have hv := editLoop_value env pw keys _ s v rest e
    subst hv
    exact ⟨s, rest, rfl⟩

set_option maxRecDepth 100000 in
/-- C23 witness: Enter after `hello` is accepted, Enter on a prefilled line of
length 254 is rejected, and both calls return 0. -/
theorem C23_return_value_is_zero_witness :
    (∃ s rest, GetCmdLine mainEnv mainBuf 0 0 [104, 101, 108, 108, 111, 10]
      = .returned s 0 rest) ∧
    (∃ s1, step mainEnv 0 helloState REX_KEY_NEWLINE = .brk s1) ∧
    (∃ s rest, GetCmdLine mainEnv mainBuf 254 0 [10] = .returned s 0 rest) ∧
    step mainEnv 0 (initState mainBuf 254) REX_KEY_NEWLINE = .ret (initState mainBuf 254) := by
  obtain ⟨s1, h1, _⟩ := keyEnter_reach_plain mainEnv helloState (by decide) (by decide)
  exact ⟨C23_return_value_is_zero mainEnv mainBuf 0 0 [104, 101, 108, 108, 111, 10]
      (by decide), ⟨s1, h1⟩,
    C23_return_value_is_zero mainEnv mainBuf 254 0 [10] (by decide), by decide⟩
/-! ## C24: the terminator after the line -/

set_option maxRecDepth 100000 in
/-- C24 (code defect): the cell content[length] is not kept at 0 by Escape and by a
line continuation. In an empty zeroed buffer of `main`, after `hello` and Escape the
length is 0 and content[0] is still `h`, which End then writes to the terminal;
after `ab\` and Enter the length is 2 and content[2] is still the backslash, which
End writes as well. Insertion and Backspace in the same runs do store the 0. -/
theorem C24_terminator_lost :
    mainBuf.getD 0 0 = 0 ∧
    (GetCmdLine mainEnv mainBuf 0 0 [104, 101, 108, 108, 111]).state.w.load 5 = 0 ∧
    (GetCmdLine mainEnv mainBuf 0 0 [104, 101, 108, 108, 111, REX_KEY_BACKSPACE]).state.w.load 4
      = 0 ∧
    (GetCmdLine mainEnv mainBuf 0 0 [104, 101, 108, 108, 111, REX_KEY_ESCAPE]).state.Index
      = 0 ∧
    (GetCmdLine mainEnv mainBuf 0 0 [104, 101, 108, 108, 111, REX_KEY_ESCAPE]).state.w.load 0
      = 104 ∧
    (GetCmdLine mainEnv mainBuf 0 0
      [104, 101, 108, 108, 111, REX_KEY_ESCAPE, REX_KEY_END]).state.w.out =
      (GetCmdLine mainEnv mainBuf 0 0 [104, 101, 108, 108, 111, REX_KEY_ESCAPE]).state.w.out
        ++ [104] ∧
    (GetCmdLine mainEnv mainBuf 0 0 [97, 98, 92, REX_KEY_NEWLINE]).state.Index = 2 ∧
    (GetCmdLine mainEnv mainBuf 0 0 [97, 98, 92, REX_KEY_NEWLINE]).state.w.load 2 = 92 ∧
    (GetCmdLine mainEnv mainBuf 0 0 [97, 98, 92, REX_KEY_NEWLINE, REX_KEY_END]).state.w.out =
      [97, 98, 92, 10, 92] ∧
    (GetCmdLine mainEnv mainBuf 0 0
      [97, 98, 92, REX_KEY_NEWLINE, REX_KEY_END]).state.w.fault = false := by
  decide

/-! ## C25: the count of the newline loop -/

/-- C25: in every state reached by keys from a start with cursorOffset = length =
prefilled length <= LINE_LEN, on a buffer of `MAX_CMD_SIZE` cells and with a column
width >= 1, the count temp3 = (length + 1 + PROMPT_STR_LEN) div columnWidth -
(cursorOffset + PROMPT_STR_LEN) div columnWidth is not negative, and an Enter that
ends the read writes the newline and then runs the loop `while (temp3--)` exactly
temp3 times. -/
theorem C25_newline_loop_count (env : Env) (buf : List Nat) (n pw : Nat) (keys : List Nat)
    (s : State) (_hW : 1 ≤ env.g_ColumnLen) (hn : n ≤ LINE_LEN)
    (hb : buf.length = MAX_CMD_SIZE) (hr : GetCmdLine env buf n pw keys = .reading s) :
    (0 : Int) ≤ (((s.Index + 1 + PROMPT_STR_LEN) / env.g_ColumnLen : Nat) : Int) -
      (((s.curIndex + PROMPT_STR_LEN) / env.g_ColumnLen : Nat) : Int) ∧
    (¬ (s.Index > s.StartIndex ∧ s.w.load (s.Index - 1) = 92) →
      ∃ s1, step env pw s REX_KEY_NEWLINE = .brk s1 ∧ s1.w.fault = s.w.fault ∧
        s1.w.out = s.w.out ++ (ConsolePutChar env REX_KEY_NEWLINE ++ newlines env
          ((((s.Index + 1 + PROMPT_STR_LEN) / env.g_ColumnLen : Nat) : Int) -
            (((s.curIndex + PROMPT_STR_LEN) / env.g_ColumnLen : Nat) : Int)).toNat)) := by
  have hR := editLoop_reading_reach env pw keys _ s (initState_reach buf n hn hb) hr
  have hmono : (s.curIndex + PROMPT_STR_LEN) / env.g_ColumnLen ≤
      (s.Index + 1 + PROMPT_STR_LEN) / env.g_ColumnLen :=
    Nat.div_le_div_right (by have := hR.1; omega)
  refine ⟨by omega, fun hnc => ?_⟩
  obtain ⟨s1, h1, _, _, _, _, hF, hO⟩ := keyEnter_reach_plain env s hR hnc
  refine ⟨s1, by rw [step_enter]; exact h1, hF, ?_⟩
  have htn : ((((s.Index + 1 + PROMPT_STR_LEN) / env.g_ColumnLen : Nat) : Int) -
      (((s.curIndex + PROMPT_STR_LEN) / env.g_ColumnLen : Nat) : Int)).toNat =
      (s.Index + 1 + PROMPT_STR_LEN) / env.g_ColumnLen -
        (s.curIndex + PROMPT_STR_LEN) / env.g_ColumnLen := by omega
  rw [hO, htn, newlines_eq, ConsolePutChar_ascii env (show REX_KEY_NEWLINE < 128 by decide)]
  rfl

set_option maxRecDepth 100000 in
/-- C25 witness: with a width of 4 columns, `hello` then Home leaves length 5 and
cursorOffset 0; temp3 = 6 div 4 - 0 div 4 = 1 and Enter writes two newlines. -/
theorem C25_newline_loop_count_witness :
    ∃ s1, step (Env.mk 4 true) 0
        (GetCmdLine (Env.mk 4 true) mainBuf 0 0
          [104, 101, 108, 108, 111, REX_KEY_HOME]).state REX_KEY_NEWLINE = .brk s1 ∧
      s1.w.out = (GetCmdLine (Env.mk 4 true) mainBuf 0 0
          [104, 101, 108, 108, 111, REX_KEY_HOME]).state.w.out ++ [10, 10] := by
  obtain ⟨s1, h1, _, h2⟩ := (C25_newline_loop_count (Env.mk 4 true) mainBuf 0 0
    [104, 101, 108, 108, 111, REX_KEY_HOME]
    (GetCmdLine (Env.mk 4 true) mainBuf 0 0 [104, 101, 108, 108, 111, REX_KEY_HOME]).state
    (by decide) (by decide) (by decide) (by decide)).2 (by decide)
  exact ⟨s1, h1, h2⟩
theorem PutCmdLine_CmdLine (env : Env) (w : World) (i c st d : Nat) :
    (PutCmdLine env w i c st d).CmdLine = w.CmdLine := by
  unfold PutCmdLine
  simp only [emit_CmdLine]
  split <;> simp [putLoop_CmdLine]

/-- Every key other than Escape and Enter keeps the 0 behind the line: in a state
that satisfies the invariant, with length <= LINE_LEN in a buffer of `MAX_CMD_SIZE`
cells and `CmdLine[Index] = 0`, the loop goes on with `CmdLine[Index] = 0`. -/
theorem terminator_kept (env : Env) (pw : Nat) (s : State) (ch : Nat) (hInv : Inv s)
    (hlen : s.Index ≤ LINE_LEN) (hcap : s.w.CmdLine.length = MAX_CMD_SIZE)
    (h0 : s.w.load s.Index = 0) (hE : ch ≠ REX_KEY_ESCAPE) (hN : ch ≠ REX_KEY_NEWLINE) :
    ∃ s1, step env pw s ch = .cont s1 ∧ s1.w.load s1.Index = 0 := by
  have hL : LINE_LEN = 250 := rfl
  have hM : MAX_CMD_SIZE = 255 := rfl
  obtain ⟨_, hI, _⟩ := hInv
  by_cases k1 : ch = REX_KEY_HOME
  · subst k1; exact ⟨_, rfl, h0⟩
  by_cases k2 : ch = REX_KEY_END
  · subst k2
    refine ⟨_, rfl, ?_⟩
    show (PutCmdLine env s.w s.Index s.curIndex s.StartIndex 0).load s.Index = 0
    unfold World.load
    rw [PutCmdLine_CmdLine]; exact h0
  by_cases k4 : ch = REX_KEY_LEFT
  · subst k4
    rw [step_left]; unfold keyLeft
    split
    · exact ⟨_, rfl, h0⟩
    · exact ⟨_, rfl, h0⟩
  by_cases k5 : ch = REX_KEY_RIGHT
  · subst k5
    rw [step_right]; unfold keyRight
    split
    · exact ⟨_, rfl, h0⟩
    · exact ⟨_, rfl, h0⟩
  by_cases k6 : ch = REX_KEY_BACKSPACE ∨ ch = SSH_BACKSPACE
  · have hs : step env pw s ch = keyBackspace env s := by
      rcases k6 with e | e <;> rw [e]
      · exact step_backspace env pw s
      · exact step_ssh_backspace env pw s
    rw [hs]
    by_cases c1 : s.Index > s.StartIndex ∧ s.curIndex ≠ 0
    · obtain ⟨s2, h2, hI2, _, _, _, _, _, hT⟩ :=
        keyBackspace_spec env s hI c1.1 c1.2 (by omega) (by omega)
      refine ⟨s2, h2, ?_⟩
      rw [hI2, hT, h0]
      split <;> rfl
    · rw [keyBackspace, if_neg c1]
      exact ⟨_, rfl, h0⟩
  by_cases k7 : ch = REX_KEY_DEL
  · subst k7
    rw [step_del]
    by_cases c1 : s.Index > s.StartIndex ∧ s.curIndex ≠ s.Index
    · by_cases c2 : s.curIndex + s.StartIndex < s.Index
      · obtain ⟨s2, h2, hI2, _, _, _, _, hT⟩ := keyDelete_spec env s c2 (by omega) (by omega)
        refine ⟨s2, h2, ?_⟩
        rw [hI2, hT, if_pos (by omega)]
        have e : s.Index - 1 + 1 = s.Index := by omega
        rw [e]; exact h0
      · have e1 : toU16 ((s.curIndex : Int) + s.StartIndex) = s.Index := by
          unfold toU16; omega
        have e2 : toU16 ((s.Index : Int) - 1) = s.Index - 1 := by unfold toU16; omega
        rw [keyDelete, if_pos c1]
        refine ⟨_, rfl, ?_⟩
        show (EraseDelChar env s.w (toU16 ((s.curIndex : Int) + s.StartIndex))
          s.Index).load (toU16 ((s.Index : Int) - 1)) = 0
        rw [e1, e2]
        unfold World.load
        rw [(EraseDelChar_tail env s.w s.Index s.Index (Nat.le_refl _) (by omega) (by omega)
          (by omega)).1]
        exact getD_set_self _ _ _ (by omega)
    · rw [keyDelete, if_neg c1]
      exact ⟨_, rfl, h0⟩
  by_cases k8 : ch = REX_KEY_TAB
  · subst k8; exact ⟨_, rfl, h0⟩
  have hs : step env pw s ch =
      if ch &&& 0xFF00 ≠ 0 then .cont { s with w := s.w.emit (ConsoleBell env) }
      else if !isprint ch then .cont { s with w := s.w.emit (ConsoleBell env) }
      else keyChar env pw s ch := by
    simp only [step, k1, k2, hE, k4, k5, k6, k7, k8, hN, if_false]
  rw [hs]
  split
  · exact ⟨_, rfl, h0⟩
  split
  · exact ⟨_, rfl, h0⟩
  · rename_i _ hp
    have hp1 : isprint ch = true := by simpa using hp
    have hb := (isprint_iff ch).1 hp1
    by_cases c1 : s.Index = LINE_LEN
    · rw [keyChar_full env pw s ch c1]
      exact ⟨_, rfl, h0⟩
    · obtain ⟨s1, h1, hI1, _, _, _, _, hT⟩ :=
        keyChar_spec env pw s ch hI c1 (by omega) (by omega) (by omega)
      refine ⟨s1, h1, ?_⟩
      rw [hI1, hT, if_pos rfl]
/-- No key reaches outside the buffer in a state that satisfies the invariant with
length <= LINE_LEN in a buffer of `MAX_CMD_SIZE` cells: the flag is left as it was,
whether the loop goes on or ends. -/
theorem step_in_bounds (env : Env) (pw : Nat) (s : State) (ch : Nat) (hInv : Inv s)
    (hlen : s.Index ≤ LINE_LEN) (hcap : s.w.CmdLine.length = MAX_CMD_SIZE) :
    ∃ s1, (step env pw s ch = .cont s1 ∨ step env pw s ch = .brk s1) ∧
      s1.w.fault = s.w.fault := by
  have hL : LINE_LEN = 250 := rfl
  have hM : MAX_CMD_SIZE = 255 := rfl
  obtain ⟨_, hI, _⟩ := hInv
  have hR : Reach s := ⟨by omega, by omega, hlen, hcap⟩
  by_cases k1 : ch = REX_KEY_HOME
  · subst k1; exact ⟨_, Or.inl rfl, rfl⟩
  by_cases k2 : ch = REX_KEY_END
  · subst k2
    exact ⟨_, Or.inl rfl, (PutCmdLine_frame env s.w s.Index s.curIndex s.StartIndex 0
      (by omega) (by omega)).2⟩
  by_cases k3 : ch = REX_KEY_ESCAPE
  · subst k3
    rw [step_escape]; unfold keyEscape
    split
    · exact ⟨_, Or.inl rfl, rfl⟩
    · refine ⟨_, Or.inl rfl, ?_⟩
      show ((if s.curIndex ≠ s.Index then putLoop env s.w s.curIndex s.Index
        else s.w).emit (EraseCmdLine env s.Index)).fault = s.w.fault
      rw [emit_fault]
      split
      · exact (putLoop_frame env s.w s.curIndex s.Index (by omega) (by omega)).2
      · rfl
  by_cases k4 : ch = REX_KEY_LEFT
  · subst k4
    rw [step_left]; unfold keyLeft
    split
    · exact ⟨_, Or.inl rfl, rfl⟩
    · exact ⟨_, Or.inl rfl, rfl⟩
  by_cases k5 : ch = REX_KEY_RIGHT
  · subst k5
    rw [step_right]; unfold keyRight
    split
    · exact ⟨_, Or.inl rfl, rfl⟩
    · exact ⟨_, Or.inl rfl, rfl⟩
  by_cases k6 : ch = REX_KEY_BACKSPACE ∨ ch = SSH_BACKSPACE
  · have hs : step env pw s ch = keyBackspace env s := by
      rcases k6 with e | e <;> rw [e]
      · exact step_backspace env pw s
      · exact step_ssh_backspace env pw s
    rw [hs]
    by_cases c1 : s.Index > s.StartIndex ∧ s.curIndex ≠ 0
    · obtain ⟨s2, h2, _, _, _, _, hF, _⟩ :=
        keyBackspace_spec env s hI c1.1 c1.2 (by omega) (by omega)
      exact ⟨s2, Or.inl h2, hF⟩
    · rw [keyBackspace, if_neg c1]
      exact ⟨_, Or.inl rfl, rfl⟩
  by_cases k7 : ch = REX_KEY_DEL
  · subst k7
    rw [step_del]
    by_cases c1 : s.Index > s.StartIndex ∧ s.curIndex ≠ s.Index
    · by_cases c2 : s.curIndex + s.StartIndex < s.Index
      · obtain ⟨s2, h2, _, _, _, _, hF, _⟩ := keyDelete_spec env s c2 (by omega) (by omega)
        exact ⟨s2, Or.inl h2, hF⟩
      · have e1 : toU16 ((s.curIndex : Int) + s.StartIndex) = s.Index := by
          unfold toU16; omega
        rw [keyDelete, if_pos c1]
        refine ⟨_, Or.inl rfl, ?_⟩
        show (EraseDelChar env s.w (toU16 ((s.curIndex : Int) + s.StartIndex))
          s.Index).fault = s.w.fault
        rw [e1]
        exact (EraseDelChar_tail env s.w s.Index s.Index (Nat.le_refl _) (by omega)
          (by omega) (by omega)).2.1
    · rw [keyDelete, if_neg c1]
      exact ⟨_, Or.inl rfl, rfl⟩
  by_cases k8 : ch = REX_KEY_TAB
  · subst k8; exact ⟨_, Or.inl rfl, rfl⟩
  by_cases k9 : ch = REX_KEY_NEWLINE
  · subst k9
    rw [step_enter]
    by_cases hc : s.Index > s.StartIndex ∧ s.w.load (s.Index - 1) = 92
    · by_cases c1 : s.Index = 1
      · have ht : s.w.touch (s.Index - 1) = s.w := touch_of_lt (by omega)
        unfold keyEnter
        rw [if_pos hc.1, ht]
        simp only
        rw [if_pos hc.2, if_pos c1]
        exact ⟨_, Or.inl rfl, rfl⟩
      · obtain ⟨s1, h1, _, _, _, _, hF⟩ :=
          keyEnter_continue env s hc.1 hc.2 c1 (by omega) (by omega)
        exact ⟨s1, Or.inl h1, hF⟩
    · obtain ⟨s1, h1, _, _, _, _, hF, _⟩ := keyEnter_reach_plain env s hR hc
      exact ⟨s1, Or.inr h1, hF⟩
  have hs : step env pw s ch =
      if ch &&& 0xFF00 ≠ 0 then .cont { s with w := s.w.emit (ConsoleBell env) }
      else if !isprint ch then .cont { s with w := s.w.emit (ConsoleBell env) }
      else keyChar env pw s ch := by
    simp only [step, k1, k2, k3, k4, k5, k6, k7, k8, k9, if_false]
  rw [hs]
  split
  · exact ⟨_, Or.inl rfl, rfl⟩
  split
  · exact ⟨_, Or.inl rfl, rfl⟩
  · rename_i _ hp
    have hp1 : isprint ch = true := by simpa using hp
    have hb := (isprint_iff ch).1 hp1
    by_cases c1 : s.Index = LINE_LEN
    · rw [keyChar_full env pw s ch c1]
      exact ⟨_, Or.inl rfl, rfl⟩
    · obtain ⟨s1, h1, _, _, _, _, hF, _⟩ :=
        keyChar_spec env pw s ch hI c1 (by omega) (by omega) (by omega)
      exact ⟨s1, Or.inl h1, hF⟩

end KeyboardDriver
